import Mathlib

/-!
# LocalLLMMailScreener — verification of the specification against the code

This file shallowly embeds the parts of the repository that the claims
C1–C10 are about and settles each claim with a theorem.

The admission queue, worker pool, outcome ledger, stats aggregator,
persistence layer and health evaluator are exercised by the repository's
tests (`test/llm-queue.test.js`) but their implementation files are not
part of the source tree available here; those components are modelled
from the specification's words (each such definition is marked
`Modelled from the spec:`).  The URL analysis (`src/url_extract.js`),
the base64url helpers (`src/gmail.js`, `test/helpers.js`) and the raw
e-mail parsing (`src/gmail.js`) are embedded from the source.
-/

namespace MailScreener

/-! ## Statistics & Health Aggregator (spec §4.3) -/

/-- Modelled from the spec: the three-valued health verdict for an
external dependency. -/
inductive Health where
  | healthy
  | degraded
  | unknown
deriving DecidableEq, Repr

/-- Modelled from the spec (§4.3, the health evaluator is not among the
available source files): the verdict for one dependency is derived from
the most recent successful-interaction timestamp (`none` when no
interaction was ever recorded) compared against the dependency's
freshness window: `unknown` with no interaction, `healthy` while the
time since the last success is within the window, `degraded` once it
exceeds the window. -/
def healthOf (now window : ℕ) (lastSuccess : Option ℕ) : Health :=
  match lastSuccess with
  | none => .unknown
  | some t => if now - t ≤ window then .healthy else .degraded

/-- Modelled from the spec (§4.3): `llm_tps.avg_tps` averages
`tokens / (latency_ms/1000)` over only the most recent `K` token
samples.  A sample is a pair `(tokens, latency_ms)`; newest samples are
at the end of the list. -/
def tpsRecent (K : ℕ) (samples : List (ℕ × ℕ)) : List (ℕ × ℕ) :=
  samples.drop (samples.length - K)

/-- Modelled from the spec (§4.3): throughput of one token sample, in
tokens per second, as an exact rational. -/
def sampleTps (s : ℕ × ℕ) : ℚ :=
  (s.1 : ℚ) * 1000 / (s.2 : ℚ)

/-- Modelled from the spec (§4.3): the windowed average throughput. -/
def avgTps (K : ℕ) (samples : List (ℕ × ℕ)) : ℚ :=
  let recent := tpsRecent K samples
  if recent.length = 0 then 0
  else ((recent.map sampleTps).sum) / (recent.length : ℚ)

/-- Modelled from the spec: `llm_tps.samples`, the number of samples in
the current window. -/
def tpsSampleCount (K : ℕ) (samples : List (ℕ × ℕ)) : ℕ :=
  (tpsRecent K samples).length

/-! ## Outcome Ledger persistence (spec §4.2) -/

/-- Modelled from the spec (§4.2): the on-disk canonical file is either
missing, corrupt, or a valid serialized snapshot.  `σ` stands for the
serialized `PersistedState`. -/
inductive DiskFile (σ : Type) where
  | missing
  | corrupt
  | valid (snapshot : σ)
deriving DecidableEq, Repr

/-- Modelled from the spec (§4.2): how one `persist()` attempt can end.
`success` means the temporary file was fully written and renamed over
the canonical path; the two failure events are a crash or I/O failure
while writing the temporary file, and a crash after the write but
before the rename.  In neither failure case is the canonical path
touched, because the write goes to a temporary location. -/
inductive PersistEvent where
  | success
  | failTempWrite
  | failBeforeRename
deriving DecidableEq, Repr

/-- Modelled from the spec (§4.2): the effect of one `persist(state)`
attempt on the canonical on-disk file.  Only a completed
write-then-rename replaces the canonical file, and it replaces it with
the full snapshot; any interrupted attempt leaves the previous canonical
file exactly as it was. -/
def persistStep {σ : Type} (disk : DiskFile σ) (state : σ) :
    PersistEvent → DiskFile σ
  | .success => .valid state
  | .failTempWrite => disk
  | .failBeforeRename => disk

/-- Modelled from the spec (§4.2): startup load.  A valid canonical file
yields its snapshot; a missing or corrupt file yields the empty initial
state instead of a startup failure. -/
def loadState {σ : Type} (empty : σ) : DiskFile σ → σ
  | .missing => empty
  | .corrupt => empty
  | .valid s => s

/-! ## Admission Queue, Worker Pool and Outcome Ledger (spec §4.1, §4.2)

The queue/pool/ledger implementation is exercised by
`test/llm-queue.test.js` but is not among the available source files;
the model below is built from the specification.  Capacity is assessed
over the pending work (items queued plus items in flight at workers) —
this is the reading of "capacity allows" under which the spec's §8
scenario outcome (m2 and bad1 dropped, m1 and twiliofail1 ok) holds —
while eviction removes only the oldest currently-queued entry, never an
in-flight one. -/

/-- Item identifiers are opaque strings (Gmail message ids). -/
abbrev MsgId := String

/-- Modelled from the spec (§3): terminal status of an OutcomeRecord. -/
inductive Status where
  | ok
  | dropped
  | error
deriving DecidableEq, Repr

/-- Modelled from the spec (§2, §3): the in-memory core state — the
FIFO admission queue, the ids currently assigned to workers, the
Outcome Ledger (an id-keyed list of terminal records, in write order),
and the aggregate counters `dropped_total`, `last_dropped_id` and
`llm_requests`. -/
structure QState where
  queue : List MsgId
  inFlight : List MsgId
  ledger : List (MsgId × Status)
  droppedTotal : ℕ
  lastDroppedId : Option MsgId
  llmRequests : ℕ
deriving DecidableEq, Repr

/-- Modelled from the spec: the empty initial state. -/
def initState : QState :=
  { queue := [], inFlight := [], ledger := [], droppedTotal := 0,
    lastDroppedId := none, llmRequests := 0 }

/-- Modelled from the spec (§4.2): `record(id, outcome)` is
idempotent-guarded — a write for an id that is already terminal is
ignored and the first recorded outcome wins. -/
def recordOutcome (id : MsgId) (st : Status)
    (l : List (MsgId × Status)) : List (MsgId × Status) :=
  if l.any (fun p => p.1 == id) then l else l ++ [(id, st)]

/-- The terminal status the ledger holds for an id, if any. -/
def statusOf (id : MsgId) (s : QState) : Option Status :=
  (s.ledger.find? (fun p => p.1 == id)).map Prod.snd

/-- Pending work: items queued plus items in flight at workers. -/
def pendingCount (s : QState) : ℕ :=
  s.inFlight.length + s.queue.length

/-- Modelled from the spec (§4.1): `enqueue(item)` admits the item if
capacity allows; otherwise it evicts the oldest currently-queued (not
yet dequeued) entry — the queue head — marks that entry `dropped` in
the ledger, increments `dropped_total`, records its id as
`last_dropped_id`, and then admits the new item. -/
def enqueue (cap : ℕ) (it : MsgId) (s : QState) : QState :=
  if pendingCount s < cap then
    { s with queue := s.queue ++ [it] }
  else
    match s.queue with
    | [] => { s with queue := [it] }
    | e :: rest =>
        { s with queue := rest ++ [it],
                 ledger := recordOutcome e .dropped s.ledger,
                 droppedTotal := s.droppedTotal + 1,
                 lastDroppedId := some e }

/-- Modelled from the spec (§4.1, §5): a worker dequeues the FIFO head,
taking exclusive ownership of it; `llm_requests` counts exactly the
items that reach a worker. -/
def dequeueToWorker (s : QState) : QState :=
  match s.queue with
  | [] => s
  | e :: rest =>
      { s with queue := rest, inFlight := s.inFlight ++ [e],
               llmRequests := s.llmRequests + 1 }

/-- Modelled from the spec (§4.1): the worker finishes its item — the
Classifier call returned a decision (`ok`) or failed (`error`), the
error being caught rather than crashing the worker — and the terminal
outcome is written to the ledger. -/
def finishWork (id : MsgId) (st : Status) (s : QState) : QState :=
  { s with inFlight := s.inFlight.erase id,
           ledger := recordOutcome id st s.ledger }

/-- One observable operation of the core. -/
inductive Op where
  | enq (cap : ℕ) (it : MsgId)
  | deq
  | fin (id : MsgId) (st : Status)

/-- Apply one operation. -/
def applyOp (s : QState) : Op → QState
  | .enq cap it => enqueue cap it s
  | .deq => dequeueToWorker s
  | .fin id st => finishWork id st s

/-- Run a list of operations from a state. -/
def runOps (s : QState) (ops : List Op) : QState :=
  ops.foldl applyOp s

/-- The §8 scenario: queue capacity 2, one worker that is slower than
admission.  The worker takes m1 as soon as it is admitted; m2, bad1 and
twiliofail1 arrive while it is still busy, so bad1's admission evicts
m2 and twiliofail1's admission evicts bad1; the worker then finishes m1
and processes twiliofail1. -/
def scenarioTrace : List Op :=
  [.enq 2 "m1", .deq, .enq 2 "m2", .enq 2 "bad1", .enq 2 "twiliofail1",
   .fin "m1" .ok, .deq, .fin "twiliofail1" .ok]

/-- The state after the §8 scenario has fully drained. -/
def scenarioFinal : QState :=
  runOps initState scenarioTrace

/-- Admit a batch of items in order (no dequeue progress in between). -/
def admitAll (cap : ℕ) (ids : List MsgId) (s : QState) : QState :=
  ids.foldl (fun t it => enqueue cap it t) s

/-- Drain the queue with a single worker: repeatedly dequeue the head
and finish it with the Classifier's result for that item (`res`). -/
def drainList (res : MsgId → Status) : List MsgId → QState → QState
  | [], s => s
  | i :: rest, s => drainList res rest (finishWork i (res i) (dequeueToWorker s))

/-- Full drain of the current queue. -/
def drainAll (res : MsgId → Status) (s : QState) : QState :=
  drainList res s.queue s




/-! ## Theorems for claims C3, C6, C7 -/

/-- C7: for every dependency the health verdict is a pure three-valued
function of the last successful-interaction timestamp and the
dependency's freshness window: it is `unknown` exactly when no
interaction was ever recorded, `healthy` when the time since the last
success is within the window, and `degraded` exactly when that time
exceeds the window. -/
theorem health_verdict_three_valued (now window : ℕ) (lastSuccess : Option ℕ) :
    (healthOf now window lastSuccess = .unknown ↔ lastSuccess = none) ∧
    (∀ t, lastSuccess = some t →
      ((healthOf now window lastSuccess = .healthy ↔ now - t ≤ window) ∧
       (healthOf now window lastSuccess = .degraded ↔ window < now - t))) := by
  constructor
  · cases lastSuccess with
    | none => simp [healthOf]
    | some t =>
      simp only [healthOf]
      constructor
      · intro h
        by_cases hle : now - t ≤ window <;> simp [hle] at h
      · intro h; exact absurd h (by simp)
  · intro t ht
    subst ht
    simp only [healthOf]
    by_cases hle : now - t ≤ window
    · rw [if_pos hle]
      exact ⟨⟨fun _ => hle, fun _ => rfl⟩,
             ⟨fun h => (by cases h), fun h => absurd hle (Nat.not_le.mpr h)⟩⟩
    · rw [if_neg hle]
      exact ⟨⟨fun h => (by cases h), fun h => absurd h hle⟩,
             ⟨fun _ => Nat.lt_of_not_le hle, fun _ => rfl⟩⟩

/-- C3: `avg_tps` is the arithmetic mean of `tokens/(latency_ms/1000)`
over only the most recent `K` samples — prepending arbitrarily much
older history does not change it — and on the three samples
`(3000,3000ms)`, `(2000,2000ms)`, `(1000,1000ms)` it equals exactly
`1000` with a sample count of `3`. -/
theorem avg_tps_windowed_and_example (K : ℕ) (old recent : List (ℕ × ℕ))
    (hlen : recent.length = K) :
    avgTps K (old ++ recent) = avgTps K recent ∧
    avgTps 3 [(3000, 3000), (2000, 2000), (1000, 1000)] = 1000 ∧
    tpsSampleCount 3 [(3000, 3000), (2000, 2000), (1000, 1000)] = 3 := by
  refine ⟨?_, by norm_num [avgTps, tpsRecent, sampleTps], by rfl⟩
  have hdrop : tpsRecent K (old ++ recent) = tpsRecent K recent := by
    simp only [tpsRecent, List.length_append, hlen]
    rw [List.drop_append_eq_append_drop]
    simp
  simp only [avgTps, hdrop]

/-- Witness for C3 at a concrete input. -/
theorem avg_tps_windowed_and_example_witness :
    avgTps 2 ([(7, 7)] ++ [(5, 5), (4, 4)]) = avgTps 2 [(5, 5), (4, 4)] :=
  (avg_tps_windowed_and_example 2 [(7, 7)] [(5, 5), (4, 4)] (by rfl)).1

/-- C6: `persist()` replaces the on-disk state atomically: a successful
attempt makes the canonical file exactly the persisted snapshot (which a
restart then reloads unchanged), an attempt that fails or crashes
mid-persist leaves the previous canonical file intact, and loading a
missing or corrupt file yields the empty initial state rather than a
failure. -/
theorem persist_atomic_replace {σ : Type} (empty state : σ)
    (disk : DiskFile σ) (ev : PersistEvent) :
    (ev = .success → loadState empty (persistStep disk state ev) = state) ∧
    (ev ≠ .success → persistStep disk state ev = disk) ∧
    loadState empty (DiskFile.missing : DiskFile σ) = empty ∧
    loadState empty (DiskFile.corrupt : DiskFile σ) = empty := by
  refine ⟨?_, ?_, rfl, rfl⟩
  · intro h; subst h; rfl
  · intro h; cases ev with
    | success => exact absurd rfl h
    | failTempWrite => rfl
    | failBeforeRename => rfl

/-- Witness for C6 at a concrete input. -/
theorem persist_atomic_replace_witness :
    loadState 0 (persistStep (DiskFile.valid 7) 42 .success) = 42 ∧
    persistStep (DiskFile.valid 7) 42 .failTempWrite = DiskFile.valid 7 :=
  ⟨(persist_atomic_replace 0 42 (DiskFile.valid 7) .success).1 rfl,
   (persist_atomic_replace 0 42 (DiskFile.valid 7) .failTempWrite).2.1
     (by simp)⟩

/-- Witness for C7 at a concrete input. -/
theorem health_verdict_three_valued_witness :
    healthOf 100 30 (some 80) = .healthy ∧ healthOf 100 30 none = .unknown := by
  refine ⟨?_, ?_⟩
  · exact ((health_verdict_three_valued 100 30 (some 80)).2 80 rfl).1.mpr
      (by norm_num)
  · exact (health_verdict_three_valued 100 30 none).1.mpr rfl


/-- Characterization of `enqueue` when capacity allows admission. -/
theorem enqueue_within_cap (cap : ℕ) (it : MsgId) (s : QState)
    (h : pendingCount s < cap) :
    enqueue cap it s = { s with queue := s.queue ++ [it] } := by
  rw [enqueue, if_pos h]

/-- Characterization of `enqueue` under overload: the queue head (the
oldest currently-queued entry) is evicted and recorded as dropped. -/
theorem enqueue_evict (cap : ℕ) (it : MsgId) (s : QState)
    (e : MsgId) (t : List MsgId)
    (h : ¬ pendingCount s < cap) (hq : s.queue = e :: t) :
    enqueue cap it s =
      { s with queue := t ++ [it],
               ledger := recordOutcome e .dropped s.ledger,
               droppedTotal := s.droppedTotal + 1,
               lastDroppedId := some e } := by
  rw [enqueue, if_neg h, hq]

/-- C1: in the §8 scenario (capacity 2, one worker slower than
admission, items m1, m2, bad1, twiliofail1 admitted in order), after
the drain m2 and bad1 are `dropped`, m1 and twiliofail1 are `ok`,
`llm_requests` is 2 and `last_dropped_id` is bad1; and in general an
overload eviction removes exactly the oldest currently-queued entry
(the queue head), never touching the in-flight items. -/
theorem queue_scenario_drop_oldest :
    (statusOf "m2" scenarioFinal = some .dropped ∧
     statusOf "bad1" scenarioFinal = some .dropped ∧
     statusOf "m1" scenarioFinal = some .ok ∧
     statusOf "twiliofail1" scenarioFinal = some .ok ∧
     scenarioFinal.llmRequests = 2 ∧
     scenarioFinal.droppedTotal = 2 ∧
     scenarioFinal.lastDroppedId = some "bad1" ∧
     scenarioFinal.queue = [] ∧ scenarioFinal.inFlight = []) ∧
    (∀ (cap : ℕ) (it : MsgId) (s : QState) (e : MsgId) (t : List MsgId),
      cap ≤ pendingCount s → s.queue = e :: t →
      (enqueue cap it s).queue = t ++ [it] ∧
      (enqueue cap it s).ledger = recordOutcome e .dropped s.ledger ∧
      (enqueue cap it s).lastDroppedId = some e ∧
      (enqueue cap it s).inFlight = s.inFlight ∧
      (s.queue.Disjoint s.inFlight → e ∉ s.inFlight)) := by
  constructor
  · decide
  · intro cap it s e t hcap hq
    have hnotlt : ¬ pendingCount s < cap := Nat.not_lt.mpr hcap
    rw [enqueue_evict cap it s e t hnotlt hq]
    exact ⟨rfl, rfl, rfl, rfl,
      fun hd hmem => hd (hq ▸ List.mem_cons_self e t) hmem⟩

/-- Witness for C1's general eviction part at a concrete state. -/
theorem queue_scenario_drop_oldest_witness :
    (enqueue 1 "c" ⟨["a", "b"], ["w"], [], 0, none, 0⟩).queue = ["b", "c"] ∧
    ("a" : MsgId) ∉ (["w"] : List MsgId) := by
  have h := queue_scenario_drop_oldest.2 1 "c"
    ⟨["a", "b"], ["w"], [], 0, none, 0⟩ "a" ["b"] (by decide) rfl
  exact ⟨h.1, h.2.2.2.2 (by simp [List.Disjoint])⟩

/-- A ledger write for a fresh id appends the record. -/
theorem recordOutcome_of_not_mem (id : MsgId) (st : Status)
    (l : List (MsgId × Status)) (h : id ∉ l.map Prod.fst) :
    recordOutcome id st l = l ++ [(id, st)] := by
  have hany : l.any (fun p => p.1 == id) = false := by
    simp only [List.any_eq_false]
    intro p hp
    simp only [beq_iff_eq]
    intro hpe
    exact h (List.mem_map.mpr ⟨p, hp, hpe⟩)
  simp [recordOutcome, hany]

/-- A ledger write for an already-terminal id is ignored: the first
recorded outcome wins. -/
theorem recordOutcome_of_mem (id : MsgId) (st : Status)
    (l : List (MsgId × Status)) (h : id ∈ l.map Prod.fst) :
    recordOutcome id st l = l := by
  have hany : l.any (fun p => p.1 == id) = true := by
    rcases List.mem_map.mp h with ⟨p, hp, hpe⟩
    exact List.any_eq_true.mpr ⟨p, hp, by simp [hpe]⟩
  simp [recordOutcome, hany]

/-- Closed form of admitting a whole batch into an empty core with no
dequeue progress: with `k = N - M` overflowing admissions, the queue
holds the `M` newest ids, the ledger holds `dropped` records for the
`k` oldest ids in admission order, and `last_dropped_id` is the id
evicted last. -/
theorem admitAll_closed (M : ℕ) (hM : 0 < M) (ids : List MsgId)
    (hnd : ids.Nodup) :
    admitAll M ids initState =
      { queue := ids.drop (ids.length - M),
        inFlight := [],
        ledger := (ids.take (ids.length - M)).map (fun i => (i, Status.dropped)),
        droppedTotal := ids.length - M,
        lastDroppedId := (ids.take (ids.length - M)).getLast?,
        llmRequests := 0 } := by
  induction ids using List.reverseRecOn with
  | nil => simp [admitAll, initState]
  | append_singleton l a ih =>
    have hndl : l.Nodup := hnd.of_append_left
    have hrec : admitAll M (l ++ [a]) initState
        = enqueue M a (admitAll M l initState) := by
      rw [admitAll, List.foldl_append]
      rfl
    rw [hrec, ih hndl]
    set n := l.length with hn
    by_cases hlt : n < M
    · have h1 : n - M = 0 := by omega
      have h2 : n + 1 - M = 0 := by omega
      rw [enqueue_within_cap]
      · simp [h1, h2, List.length_append]
      · simp only [pendingCount, h1, List.drop_zero, List.length_nil]
        omega
    · have hMn : M ≤ n := Nat.le_of_not_lt hlt
      have hlen : n - M < n := by omega
      have hget : l.drop (n - M) = l.get ⟨n - M, hlen⟩ :: l.drop (n - M + 1) := by
        rw [List.drop_eq_getElem_cons hlen]
        rfl
      have hcond : ¬ pendingCount
          { queue := l.drop (l.length - M), inFlight := [],
            ledger := (l.take (l.length - M)).map (fun i => (i, Status.dropped)),
            droppedTotal := l.length - M,
            lastDroppedId := (l.take (l.length - M)).getLast?,
            llmRequests := 0 } < M := by
        simp only [pendingCount, List.length_nil, List.length_drop]
        omega
      rw [enqueue_evict M a _ (l.get ⟨n - M, hlen⟩) (l.drop (n - M + 1)) hcond
        (by exact hget)]
      have hfresh : l.get ⟨n - M, hlen⟩ ∉ l.take (n - M) := by
        have hsplit := List.take_append_drop (n - M) l
        have hdisj : (l.take (n - M)).Disjoint (l.drop (n - M)) := by
          have : ((l.take (n - M)) ++ (l.drop (n - M))).Nodup := by
            rw [hsplit]; exact hndl
          exact (List.nodup_append.mp this).2.2
        intro hmem
        exact hdisj hmem (by rw [hget]; exact List.mem_cons_self _ _)
      have hkeys : ((l.take (n - M)).map
          (fun i => (i, Status.dropped))).map Prod.fst = l.take (n - M) := by
        have hcomp : (Prod.fst ∘ fun i : MsgId => (i, Status.dropped)) = id := rfl
        rw [List.map_map, hcomp, List.map_id]
      have hrecord : recordOutcome (l.get ⟨n - M, hlen⟩) .dropped
          ((l.take (n - M)).map (fun i => (i, Status.dropped)))
          = (l.take (n - M)).map (fun i => (i, Status.dropped))
            ++ [(l.get ⟨n - M, hlen⟩, Status.dropped)] := by
        apply recordOutcome_of_not_mem
        rw [hkeys]
        exact hfresh
      have htake : l.take (n - M + 1)
          = l.take (n - M) ++ [l.get ⟨n - M, hlen⟩] := by
        rw [← List.take_concat_get l (n - M) hlen]
        simp [List.concat_eq_append]
      have hk : (l ++ [a]).length - M = n - M + 1 := by
        simp only [List.length_append, List.length_cons, List.length_nil]
        omega
      have hdropl : (l ++ [a]).drop (n - M + 1) = l.drop (n - M + 1) ++ [a] := by
        rw [List.drop_append_eq_append_drop]
        have : n - M + 1 - l.length = 0 := by omega
        rw [this]
        rfl
      have htakel : (l ++ [a]).take (n - M + 1) = l.take (n - M + 1) := by
        rw [List.take_append_eq_append_take]
        have : n - M + 1 - l.length = 0 := by omega
        rw [this]
        simp
      simp only [hk, hdropl, htakel, htake, hrecord]
      simp only [QState.mk.injEq, List.map_append]
      simp only [htake, List.getLast?_concat]
      simp

/-- C2 (amended): for every batch of `N` distinct admissions into a
queue of capacity `0 < M < N` with zero dequeue progress, the ledger
accumulates exactly `N−M` `dropped` outcomes, `dropped_total = N−M`,
and `last_dropped_id` is the `(N−M)`th-oldest admitted id — the one
evicted last; moreover `dropped_total` is monotonically non-decreasing
under every operation of the core. -/
theorem batch_overflow_drop_count (ids : List MsgId) (M : ℕ)
    (hM : 0 < M) (hMN : M < ids.length) (hnd : ids.Nodup) :
    ((admitAll M ids initState).ledger.countP
        (fun p => p.2 == Status.dropped) = ids.length - M) ∧
    (admitAll M ids initState).droppedTotal = ids.length - M ∧
    (admitAll M ids initState).lastDroppedId
      = ids[ids.length - M - 1]? ∧
    (∀ (s : QState) (op : Op),
      s.droppedTotal ≤ (applyOp s op).droppedTotal) := by
  rw [admitAll_closed M hM ids hnd]
  refine ⟨?_, rfl, ?_, ?_⟩
  · have hall : ∀ p ∈ (ids.take (ids.length - M)).map
        (fun i => (i, Status.dropped)), (p.2 == Status.dropped) = true := by
      intro p hp
      rcases List.mem_map.mp hp with ⟨i, _, rfl⟩
      rfl
    rw [List.countP_eq_length.mpr hall]
    simp only [List.length_map, List.length_take]
    omega
  · have hk1 : ids.length - M - 1 < ids.length := by omega
    have hidx : ids.length - M = ids.length - M - 1 + 1 := by omega
    show (ids.take (ids.length - M)).getLast? = _
    rw [hidx, ← List.take_concat_get ids (ids.length - M - 1) hk1,
        List.concat_eq_append, List.getLast?_concat]
    exact (List.getElem?_eq_getElem hk1).symm
  · intro s op
    cases op with
    | enq cap it =>
      show s.droppedTotal ≤ (enqueue cap it s).droppedTotal
      unfold enqueue
      split
      · exact le_rfl
      · split
        · exact le_rfl
        · exact Nat.le_succ _
    | deq =>
      show s.droppedTotal ≤ (dequeueToWorker s).droppedTotal
      unfold dequeueToWorker
      split <;> exact le_rfl
    | fin id st =>
      exact le_rfl

/-- Witness for C2 at a concrete batch. -/
theorem batch_overflow_drop_count_witness :
    (admitAll 2 ["a", "b", "c"] initState).droppedTotal = 1 ∧
    (admitAll 2 ["a", "b", "c"] initState).lastDroppedId = some "a" := by
  have h := batch_overflow_drop_count ["a", "b", "c"] 2
    (by decide) (by decide) (by decide)
  exact ⟨h.2.1, by rw [h.2.2.1]; rfl⟩

/-- Draining a state with no in-flight work and queue `l` dequeues each
entry in FIFO order, hands it to the worker, and writes its Classifier
outcome; every dequeued item counts towards `llm_requests`. -/
theorem drainList_spec (res : MsgId → Status) :
    ∀ (l : List MsgId) (s : QState), s.queue = l → s.inFlight = [] →
    drainList res l s =
      { queue := [], inFlight := [],
        ledger := l.foldl (fun L i => recordOutcome i (res i) L) s.ledger,
        droppedTotal := s.droppedTotal,
        lastDroppedId := s.lastDroppedId,
        llmRequests := s.llmRequests + l.length } := by
  intro l
  induction l with
  | nil =>
    intro s hq hf
    cases s
    simp_all [drainList]
  | cons i rest ih =>
    intro s hq hf
    rw [drainList]
    have hstep : finishWork i (res i) (dequeueToWorker s)
        = { queue := rest, inFlight := [],
            ledger := recordOutcome i (res i) s.ledger,
            droppedTotal := s.droppedTotal,
            lastDroppedId := s.lastDroppedId,
            llmRequests := s.llmRequests + 1 } := by
      have hdeq : dequeueToWorker s
          = { s with queue := rest, inFlight := s.inFlight ++ [i],
                     llmRequests := s.llmRequests + 1 } := by
        rw [dequeueToWorker, hq]
      rw [finishWork, hdeq, hf]
      simp [List.erase_cons_head]
    rw [hstep, ih _ rfl rfl]
    simp only [QState.mk.injEq, List.foldl_cons, List.length_cons,
      true_and, and_true]
    omega

/-- Folding ledger writes for fresh, pairwise-distinct ids appends one
record per id, in order. -/
theorem foldl_record_fresh (res : MsgId → Status) :
    ∀ (l : List MsgId) (L : List (MsgId × Status)),
    (∀ i ∈ l, i ∉ L.map Prod.fst) → l.Nodup →
    l.foldl (fun L2 i => recordOutcome i (res i) L2) L
      = L ++ l.map (fun i => (i, res i)) := by
  intro l
  induction l with
  | nil =>
    intro L _ _
    simp
  | cons i rest ih =>
    intro L hfresh hnd
    have hi : i ∉ L.map Prod.fst := hfresh i (List.mem_cons_self i rest)
    rw [List.foldl_cons, recordOutcome_of_not_mem i (res i) L hi, ih]
    · simp
    · intro j hj
      rw [List.map_append]
      simp only [List.mem_append, List.map_cons, List.map_nil,
        List.mem_singleton, not_or]
      refine ⟨hfresh j (List.mem_cons_of_mem i hj), ?_⟩
      intro hji
      exact (List.nodup_cons.mp hnd).1 (hji ▸ hj)
    · exact (List.nodup_cons.mp hnd).2

/-- In a ledger fragment built from ids not containing `j`, a lookup
for `j` finds nothing. -/
theorem find?_pair_eq_none (g : MsgId → Status) (xs : List MsgId)
    (j : MsgId) (h : j ∉ xs) :
    (xs.map (fun i => (i, g i))).find? (fun p => p.1 == j) = none := by
  rw [List.find?_eq_none]
  intro p hp
  rcases List.mem_map.mp hp with ⟨i, hi, rfl⟩
  simp only [beq_iff_eq]
  intro he
  exact h (he ▸ hi)

/-- In a ledger fragment built from ids containing `j`, a lookup for
`j` finds the record `(j, g j)`. -/
theorem find?_pair_eq_some (g : MsgId → Status) (xs : List MsgId)
    (j : MsgId) (h : j ∈ xs) :
    (xs.map (fun i => (i, g i))).find? (fun p => p.1 == j)
      = some (j, g j) := by
  induction xs with
  | nil => cases h
  | cons x rest ih =>
    by_cases hx : x = j
    · subst hx
      simp [List.find?_cons]
    · have hj : j ∈ rest := by
        cases List.mem_cons.mp h with
        | inl he => exact absurd he.symm hx
        | inr hr => exact hr
      have hbeq : (x == j) = false := by
        simp [hx]
      rw [List.map_cons, List.find?_cons]
      simp only [hbeq]
      exact ih hj

/-- The `take`/`drop` split of a duplicate-free list is disjoint. -/
theorem take_drop_disjoint (xs : List MsgId) (k : ℕ) (h : xs.Nodup) :
    (xs.take k).Disjoint (xs.drop k) := by
  have hsplit : ((xs.take k) ++ (xs.drop k)).Nodup := by
    rw [List.take_append_drop]
    exact h
  exact (List.nodup_append.mp hsplit).2.2

/-- Closed form of a full poll cycle on an empty core: admit the whole
batch (dropping the `k = N − M` oldest under overload), then drain.
The final ledger pairs each of the `k` oldest ids with `dropped` and
each remaining id with its Classifier outcome. -/
theorem drainAll_closed (M : ℕ) (hM : 0 < M) (ids : List MsgId)
    (hnd : ids.Nodup) (res : MsgId → Status) :
    drainAll res (admitAll M ids initState) =
      { queue := [], inFlight := [],
        ledger := (ids.take (ids.length - M)).map (fun i => (i, Status.dropped))
          ++ (ids.drop (ids.length - M)).map (fun i => (i, res i)),
        droppedTotal := ids.length - M,
        lastDroppedId := (ids.take (ids.length - M)).getLast?,
        llmRequests := (ids.drop (ids.length - M)).length } := by
  rw [drainAll, admitAll_closed M hM ids hnd]
  rw [drainList_spec res _ _ rfl rfl]
  rw [foldl_record_fresh res _ _ ?hfresh ?hnodup]
  case hfresh =>
    intro i hi
    have hkeys : ((ids.take (ids.length - M)).map
        (fun i => (i, Status.dropped))).map Prod.fst
        = ids.take (ids.length - M) := by
      have hcomp : (Prod.fst ∘ fun i : MsgId => (i, Status.dropped)) = id := rfl
      rw [List.map_map, hcomp, List.map_id]
    rw [hkeys]
    intro htk
    exact take_drop_disjoint ids (ids.length - M) hnd htk hi
  case hnodup =>
    exact (List.nodup_append.mp
      (by rw [List.take_append_drop]; exact hnd)).2.1
  simp

/-- After the drain, each of the `k` oldest (evicted) ids is terminal
with status `dropped`. -/
theorem statusOf_drain_take (M : ℕ) (hM : 0 < M) (ids : List MsgId)
    (hnd : ids.Nodup) (res : MsgId → Status) (j : MsgId)
    (hj : j ∈ ids.take (ids.length - M)) :
    statusOf j (drainAll res (admitAll M ids initState))
      = some .dropped := by
  rw [drainAll_closed M hM ids hnd res]
  simp only [statusOf]
  rw [List.find?_append, find?_pair_eq_some _ _ _ hj]
  rfl

/-- After the drain, each id that reached a worker is terminal with its
Classifier outcome. -/
theorem statusOf_drain_drop (M : ℕ) (hM : 0 < M) (ids : List MsgId)
    (hnd : ids.Nodup) (res : MsgId → Status) (j : MsgId)
    (hj : j ∈ ids.drop (ids.length - M)) :
    statusOf j (drainAll res (admitAll M ids initState))
      = some (res j) := by
  rw [drainAll_closed M hM ids hnd res]
  simp only [statusOf]
  rw [List.find?_append,
    find?_pair_eq_none _ _ _
      (fun hmem => take_drop_disjoint ids (ids.length - M) hnd hmem hj),
    find?_pair_eq_some _ _ _ hj]
  rfl

/-- After the drain, every admitted id has exactly one ledger record. -/
theorem countP_drain_one (M : ℕ) (hM : 0 < M) (ids : List MsgId)
    (hnd : ids.Nodup) (res : MsgId → Status) (j : MsgId) (hj : j ∈ ids) :
    (drainAll res (admitAll M ids initState)).ledger.countP
      (fun p => p.1 == j) = 1 := by
  rw [drainAll_closed M hM ids hnd res]
  show ((ids.take (ids.length - M)).map (fun i => (i, Status.dropped))
    ++ (ids.drop (ids.length - M)).map (fun i => (i, res i))).countP
      (fun p => p.1 == j) = 1
  rw [List.countP_append, List.countP_map, List.countP_map]
  have h1 : ((fun p : MsgId × Status => p.1 == j)
      ∘ (fun i => (i, Status.dropped))) = (fun i => i == j) := rfl
  have h2 : ((fun p : MsgId × Status => p.1 == j)
      ∘ (fun i => (i, res i))) = (fun i => i == j) := rfl
  rw [h1, h2, ← List.countP_append, List.take_append_drop]
  exact List.count_eq_one_of_mem hnd hj

/-- C4: after every full drain cycle the queue depth is 0 (and nothing
is left in flight), every admitted id has exactly one terminal
OutcomeRecord with status among ok/dropped/error, and a second ledger
write for an already-terminal id is ignored — the first recorded
outcome wins. -/
theorem drain_exactly_one_record (M : ℕ) (hM : 0 < M) (ids : List MsgId)
    (hnd : ids.Nodup) (res : MsgId → Status) :
    ((drainAll res (admitAll M ids initState)).queue = [] ∧
     (drainAll res (admitAll M ids initState)).inFlight = []) ∧
    (∀ id ∈ ids,
      (drainAll res (admitAll M ids initState)).ledger.countP
        (fun p => p.1 == id) = 1) ∧
    (∀ id ∈ ids, ∃ st,
      statusOf id (drainAll res (admitAll M ids initState)) = some st ∧
      (st = .ok ∨ st = .dropped ∨ st = .error)) ∧
    (∀ (id : MsgId) (st2 : Status) (L : List (MsgId × Status)),
      id ∈ L.map Prod.fst → recordOutcome id st2 L = L) := by
  refine ⟨?_, ?_, ?_, fun id st2 L h => recordOutcome_of_mem id st2 L h⟩
  · rw [drainAll_closed M hM ids hnd res]
    exact ⟨rfl, rfl⟩
  · intro id hid
    exact countP_drain_one M hM ids hnd res id hid
  · intro id hid
    have hsplit : id ∈ ids.take (ids.length - M)
        ++ ids.drop (ids.length - M) := by
      rw [List.take_append_drop]
      exact hid
    cases List.mem_append.mp hsplit with
    | inl htk =>
      exact ⟨.dropped, statusOf_drain_take M hM ids hnd res id htk,
        Or.inr (Or.inl rfl)⟩
    | inr hdr =>
      refine ⟨res id, statusOf_drain_drop M hM ids hnd res id hdr, ?_⟩
      cases res id with
      | ok => exact Or.inl rfl
      | dropped => exact Or.inr (Or.inl rfl)
      | error => exact Or.inr (Or.inr rfl)

/-- Witness for C4 at a concrete batch. -/
theorem drain_exactly_one_record_witness :
    (drainAll (fun _ => .ok) (admitAll 1 ["x", "y"] initState)).queue = []
    ∧ (drainAll (fun _ => .ok)
        (admitAll 1 ["x", "y"] initState)).ledger.countP
        (fun p => p.1 == "x") = 1 := by
  have h := drain_exactly_one_record 1 (by decide) ["x", "y"]
    (by decide) (fun _ => .ok)
  exact ⟨h.1.1, h.2.1 "x" (by decide)⟩

/-- C5: a failing Classifier call is caught rather than crashing the
worker: the item gets a terminal `error` OutcomeRecord, written exactly
once (it is never retried), the worker proceeds so every other item
that reached a worker still gets its own terminal outcome, and the
queue fully drains. -/
theorem classifier_failure_recorded (M : ℕ) (hM : 0 < M)
    (ids : List MsgId) (hnd : ids.Nodup) (res : MsgId → Status)
    (bad : MsgId) (hbad : bad ∈ ids.drop (ids.length - M))
    (hres : res bad = .error) :
    statusOf bad (drainAll res (admitAll M ids initState))
      = some .error ∧
    (drainAll res (admitAll M ids initState)).ledger.countP
      (fun p => p.1 == bad) = 1 ∧
    (drainAll res (admitAll M ids initState)).queue = [] ∧
    (∀ j ∈ ids.drop (ids.length - M),
      statusOf j (drainAll res (admitAll M ids initState))
        = some (res j)) ∧
    (drainAll res (admitAll M ids initState)).llmRequests
      = (ids.drop (ids.length - M)).length := by
  refine ⟨?_, ?_, ?_, ?_, ?_⟩
  · rw [statusOf_drain_drop M hM ids hnd res bad hbad, hres]
  · exact countP_drain_one M hM ids hnd res bad
      (List.drop_subset _ ids hbad)
  · rw [drainAll_closed M hM ids hnd res]
  · intro j hj
    exact statusOf_drain_drop M hM ids hnd res j hj
  · rw [drainAll_closed M hM ids hnd res]

/-- Witness for C5 at a concrete batch: b's Classifier call fails, b is
recorded `error`, and the later item c is still processed `ok`. -/
theorem classifier_failure_recorded_witness :
    statusOf "b" (drainAll
      (fun j => if j == "b" then .error else .ok)
      (admitAll 2 ["a", "b", "c"] initState)) = some .error ∧
    statusOf "c" (drainAll
      (fun j => if j == "b" then .error else .ok)
      (admitAll 2 ["a", "b", "c"] initState)) = some .ok := by
  have h := classifier_failure_recorded 2 (by decide) ["a", "b", "c"]
    (by decide) (fun j => if j == "b" then .error else .ok)
    "b" (by decide) (by decide)
  refine ⟨h.1, ?_⟩
  have hc := h.2.2.2.1 "c" (by decide)
  simpa using hc

/-- C2 counterexample: admitting the three distinct ids i1, i2, i3 into
a queue of capacity M = 1 with zero dequeue progress leaves
`last_dropped_id = i2` (the `(N−M)`th-oldest id, evicted last), not the
Mth-oldest admitted id i1 that the claim names. -/
theorem last_dropped_not_mth_oldest :
    (admitAll 1 ["i1", "i2", "i3"] initState).droppedTotal = 2 ∧
    (admitAll 1 ["i1", "i2", "i3"] initState).lastDroppedId = some "i2" ∧
    ¬ (admitAll 1 ["i1", "i2", "i3"] initState).lastDroppedId
        = some "i1" := by
  decide

/-! ## Base64url encoding and decoding (`test/helpers.js`,
`src/gmail.js`)

Bytes are modelled as natural numbers below 256.  Node's
`Buffer.toString('base64')` / `Buffer.from(·, 'base64')` pair is the
platform base64 codec: the encoder emits standard base64 with `'='`
padding; the decoder skips characters outside the base64 alphabet
(including `'='`) and keeps `⌊6·n/8⌋` bytes from `n` alphabet
characters, which is what makes it tolerant of stripped padding. -/

/-- The standard base64 alphabet. -/
def base64Chars : List Char :=
  "ABCDEFGHIJKLMNOPQRSTUVWXYZabcdefghijklmnopqrstuvwxyz0123456789+/".toList

/-- The alphabet character for a 6-bit value. -/
def base64CharOf (v : ℕ) : Char :=
  base64Chars.getD v '?'

/-- The 6-bit value of an alphabet character; `none` for `'='` and any
foreign character (Node's decoder skips those). -/
def base64ValOf (c : Char) : Option ℕ :=
  base64Chars.findIdx? (fun x => x == c)

/-- Node's base64 encoder: three bytes become four characters; a final
group of one or two bytes is padded with `'='`. -/
def base64Groups : List ℕ → List Char
  | [] => []
  | [b0] =>
      [base64CharOf (b0 / 4), base64CharOf (b0 % 4 * 16), '=', '=']
  | [b0, b1] =>
      [base64CharOf (b0 / 4), base64CharOf (b0 % 4 * 16 + b1 / 16),
       base64CharOf (b1 % 16 * 4), '=']
  | b0 :: b1 :: b2 :: rest =>
      base64CharOf (b0 / 4) :: base64CharOf (b0 % 4 * 16 + b1 / 16)
        :: base64CharOf (b1 % 16 * 4 + b2 / 64) :: base64CharOf (b2 % 64)
        :: base64Groups rest

/-- `replace(/\+/g, '-').replace(/\//g, '_')`, per character. -/
def urlSafeChar (c : Char) : Char :=
  if c = '+' then '-' else if c = '/' then '_' else c

/-- `replace(/=+$/, '')`: strip the trailing run of `'='`. -/
def stripTrailingEq (cs : List Char) : List Char :=
  (cs.reverse.dropWhile (fun c => c == '=')).reverse

/-- `test/helpers.js` `base64UrlEncode`: standard base64, then `'+'`
to `'-'`, `'/'` to `'_'`, and trailing `'='` padding stripped. -/
def base64UrlEncode (bytes : List ℕ) : List Char :=
  stripTrailingEq ((base64Groups bytes).map urlSafeChar)

/-- The inverse substitution: `'-'` back to `'+'` and `'_'` back to
`'/'`, per character. -/
def unUrlSafeChar (c : Char) : Char :=
  if c = '-' then '+' else if c = '_' then '/' else c

/-- Reassemble bytes from 6-bit values: each full group of four sextets
yields three bytes; a trailing group of three yields two, of two yields
one, of one (or none) yields nothing — Node keeps `⌊6·n/8⌋` bytes. -/
def bytesOfSextets : List ℕ → List ℕ
  | s0 :: s1 :: s2 :: s3 :: rest =>
      (s0 * 4 + s1 / 16) :: (s1 % 16 * 16 + s2 / 4) :: (s2 % 4 * 64 + s3)
        :: bytesOfSextets rest
  | [s0, s1, s2] => [s0 * 4 + s1 / 16, s1 % 16 * 16 + s2 / 4]
  | [s0, s1] => [s0 * 4 + s1 / 16]
  | _ => []

/-- `src/gmail.js` `decodeBase64Url`: `'-'` to `'+'`, `'_'` to `'/'`,
then Node's `Buffer.from(·, 'base64')`. -/
def decodeBase64Url (cs : List Char) : List ℕ :=
  bytesOfSextets ((cs.map unUrlSafeChar).filterMap base64ValOf)

/-- The sextet stream the encoder produces for a byte string (proof
helper). -/
def sextetsOfBytes : List ℕ → List ℕ
  | [] => []
  | [b0] => [b0 / 4, b0 % 4 * 16]
  | [b0, b1] => [b0 / 4, b0 % 4 * 16 + b1 / 16, b1 % 16 * 4]
  | b0 :: b1 :: b2 :: rest =>
      b0 / 4 :: (b0 % 4 * 16 + b1 / 16) :: (b1 % 16 * 4 + b2 / 64)
        :: b2 % 64 :: sextetsOfBytes rest

/-- Every 6-bit value survives encoding to a character, the url-safe
substitution, the inverse substitution and the value lookup. -/
theorem base64_val_round_fin :
    ∀ v : Fin 64,
      base64ValOf (unUrlSafeChar (urlSafeChar (base64CharOf v.val)))
        = some v.val := by decide

/-- `base64_val_round_fin`, for a bounded natural number. -/
theorem base64_val_round (s : ℕ) (h : s < 64) :
    base64ValOf (unUrlSafeChar (urlSafeChar (base64CharOf s)))
      = some s :=
  base64_val_round_fin ⟨s, h⟩

/-- Padding contributes no sextet: Node's decoder skips `'='`. -/
theorem base64ValOf_pad :
    base64ValOf (unUrlSafeChar (urlSafeChar '=')) = none := by decide

/-- A string splits into its stripped form plus its trailing `'='`s. -/
theorem strip_decomp (cs : List Char) :
    cs = stripTrailingEq cs
      ++ (cs.reverse.takeWhile (fun c => c == '=')).reverse := by
  symm
  rw [stripTrailingEq, ← List.reverse_append,
    List.takeWhile_append_dropWhile, List.reverse_reverse]

/-- Stripping the trailing padding does not change the decoded sextet
stream, because `'='` decodes to nothing anyway. -/
theorem filterMap_strip (cs : List Char) :
    ((stripTrailingEq cs).map unUrlSafeChar).filterMap base64ValOf
      = (cs.map unUrlSafeChar).filterMap base64ValOf := by
  conv_rhs => rw [strip_decomp cs]
  rw [List.map_append, List.filterMap_append]
  have htail : (((cs.reverse.takeWhile (fun c => c == '=')).reverse.map
      unUrlSafeChar).filterMap base64ValOf) = [] := by
    rw [List.filterMap_eq_nil_iff]
    intro c hc
    rcases List.mem_map.mp hc with ⟨d, hd, rfl⟩
    have hd2 : d ∈ cs.reverse.takeWhile (fun c => c == '=') :=
      List.mem_reverse.mp hd
    have hde : d = '=' := by
      have := List.mem_takeWhile_imp hd2
      simpa using this
    subst hde
    exact base64ValOf_pad
  rw [htail, List.append_nil]

/-- The encoder's character stream decodes to exactly the sextet
stream of the input bytes. -/
theorem filterMap_base64Groups : ∀ (bytes : List ℕ),
    (∀ b ∈ bytes, b < 256) →
    ((((base64Groups bytes).map urlSafeChar).map unUrlSafeChar).filterMap
      base64ValOf) = sextetsOfBytes bytes
  | [], _ => rfl
  | [b0], h => by
    have h0 : b0 < 256 := h b0 (by simp)
    simp only [base64Groups, sextetsOfBytes, List.map_cons, List.map_nil,
      List.filterMap_cons,
      base64_val_round (b0 / 4) (by omega),
      base64_val_round (b0 % 4 * 16) (by omega),
      base64ValOf_pad, List.filterMap_nil]
  | [b0, b1], h => by
    have h0 : b0 < 256 := h b0 (by simp)
    have h1 : b1 < 256 := h b1 (by simp)
    simp only [base64Groups, sextetsOfBytes, List.map_cons, List.map_nil,
      List.filterMap_cons,
      base64_val_round (b0 / 4) (by omega),
      base64_val_round (b0 % 4 * 16 + b1 / 16) (by omega),
      base64_val_round (b1 % 16 * 4) (by omega),
      base64ValOf_pad, List.filterMap_nil]
  | b0 :: b1 :: b2 :: rest, h => by
    have h0 : b0 < 256 := h b0 (by simp)
    have h1 : b1 < 256 := h b1 (by simp)
    have h2 : b2 < 256 := h b2 (by simp)
    have ih := filterMap_base64Groups rest (fun b hb => h b (by simp [hb]))
    simp only [base64Groups, sextetsOfBytes, List.map_cons,
      List.filterMap_cons,
      base64_val_round (b0 / 4) (by omega),
      base64_val_round (b0 % 4 * 16 + b1 / 16) (by omega),
      base64_val_round (b1 % 16 * 4 + b2 / 64) (by omega),
      base64_val_round (b2 % 64) (by omega)]
    rw [ih]

/-- Reassembling the sextet stream recovers the original bytes. -/
theorem bytes_round : ∀ (bytes : List ℕ), (∀ b ∈ bytes, b < 256) →
    bytesOfSextets (sextetsOfBytes bytes) = bytes
  | [], _ => rfl
  | [b0], h => by
    have h0 : b0 < 256 := h b0 (by simp)
    simp only [sextetsOfBytes, bytesOfSextets, List.cons.injEq, and_true]
    omega
  | [b0, b1], h => by
    have h0 : b0 < 256 := h b0 (by simp)
    have h1 : b1 < 256 := h b1 (by simp)
    simp only [sextetsOfBytes, bytesOfSextets, List.cons.injEq, and_true]
    omega
  | b0 :: b1 :: b2 :: rest, h => by
    have h0 : b0 < 256 := h b0 (by simp)
    have h1 : b1 < 256 := h b1 (by simp)
    have h2 : b2 < 256 := h b2 (by simp)
    have ih := bytes_round rest (fun b hb => h b (by simp [hb]))
    simp only [sextetsOfBytes, bytesOfSextets, ih, List.cons.injEq,
      and_true]
    omega

/-- C9: for every byte string `s`, decoding `base64UrlEncode s` with
`decodeBase64Url` recovers exactly `s`: the encoder maps `'+'` to
`'-'`, `'/'` to `'_'` and strips the trailing `'='` padding, and the
decoder inverts the substitution and decodes despite the missing
padding. -/
theorem base64url_round_trip (bytes : List ℕ)
    (h : ∀ b ∈ bytes, b < 256) :
    decodeBase64Url (base64UrlEncode bytes) = bytes := by
  rw [decodeBase64Url, base64UrlEncode, filterMap_strip,
    filterMap_base64Groups bytes h, bytes_round bytes h]

/-- Witness for C9 on the concrete byte string "Hi!". -/
theorem base64url_round_trip_witness :
    decodeBase64Url (base64UrlEncode [72, 105, 33]) = [72, 105, 33] :=
  base64url_round_trip [72, 105, 33] (by decide)

/-! ## Raw Gmail message parsing (`src/gmail.js` `parseRawEmail`) -/

/-- One attachment as `parseRawEmail` projects it out of `mailparser`'s
result: only `filename`, `contentType` and `size` are kept; each may be
absent on the parsed object. -/
structure Attachment where
  filename : Option String
  contentType : Option String
  size : Option ℕ
deriving DecidableEq, Repr

/-- The fields of `mailparser.simpleParser`'s result that
`parseRawEmail` reads.  `simpleParser` is an external library, so its
result is modelled abstractly: `none` models an absent (undefined)
field; an empty string is a present-but-falsy value, as in JS.
`fromText`, `toText`, `ccText` stand for the `.text` projections of the
parsed address objects (covering both a missing header and a missing
`.text`); `dateIso` stands for `date.toISOString()` of a present
`Date`. -/
structure ParsedMail where
  text : Option String
  html : Option String
  fromText : Option String
  toText : Option String
  ccText : Option String
  subject : Option String
  dateIso : Option String
  attachments : Option (List Attachment)

/-- A raw Gmail API message object: `id`, `threadId` and the base64url
`raw` payload, any of which may be absent. -/
structure RawGmail where
  id : Option String
  threadId : Option String
  raw : Option String

/-- JS truthiness of an optional string: absent and empty are falsy. -/
def truthy (o : Option String) : Bool :=
  match o with
  | none => false
  | some s => !s.isEmpty

/-- `src/gmail.js` `fallbackText`: the plain-text part when truthy,
else the HTML part converted to text when truthy, else the empty
string.  `h2t` is the external `htmlToText` conversion. -/
def fallbackText (h2t : String → String) (p : ParsedMail) : String :=
  if truthy p.text then p.text.getD ""
  else if truthy p.html then h2t (p.html.getD "")
  else ""

/-- The decoded buffer handed to the parser:
`decodeBase64Url(rawData.raw || '')`. -/
def rawBuffer (raw : RawGmail) : List ℕ :=
  decodeBase64Url (raw.raw.getD "").toList

/-- The e-mail object `parseRawEmail` builds. -/
structure EmailObj where
  id : Option String
  threadId : Option String
  fromAddr : String
  toAddr : String
  ccAddr : String
  subject : String
  date : String
  body_text : String
  attachments : List Attachment

/-- `src/gmail.js` `parseRawEmail`: decode the base64url payload
(missing payload treated as the empty string), run the external parser,
and build the e-mail object with every missing field defaulted — the
`.text` projections and the subject default to `''` via `|| ''` and
`?.`, a missing date renders as `''`, missing attachments as `[]`. -/
def parseRawEmail (parser : List ℕ → ParsedMail) (h2t : String → String)
    (raw : RawGmail) : EmailObj :=
  let parsed := parser (rawBuffer raw)
  { id := raw.id,
    threadId := raw.threadId,
    fromAddr := parsed.fromText.getD "",
    toAddr := parsed.toText.getD "",
    ccAddr := parsed.ccText.getD "",
    subject := parsed.subject.getD "",
    date := parsed.dateIso.getD "",
    body_text := fallbackText h2t parsed,
    attachments := (parsed.attachments.getD []).map
      (fun a => { filename := a.filename, contentType := a.contentType,
                  size := a.size }) }

/-- C10: `parseRawEmail` is total on its input fields — it is a total
function of the raw message and the parser's result, so no input makes
it throw — with `body_text` the plain-text part when (truthily)
present, otherwise the HTML part converted to text, otherwise the empty
string; missing `from`/`to`/`cc`/`subject` headers and a missing date
each default to the empty string, missing attachments to the empty
list, and a missing raw payload behaves exactly like an empty one. -/
theorem parse_raw_email_total_defaults
    (parser : List ℕ → ParsedMail) (h2t : String → String)
    (raw : RawGmail) :
    ((parseRawEmail parser h2t raw).body_text
      = fallbackText h2t (parser (rawBuffer raw))) ∧
    (∀ s, (parser (rawBuffer raw)).text = some s → s ≠ "" →
      (parseRawEmail parser h2t raw).body_text = s) ∧
    (∀ hs, truthy (parser (rawBuffer raw)).text = false →
      (parser (rawBuffer raw)).html = some hs → hs ≠ "" →
      (parseRawEmail parser h2t raw).body_text = h2t hs) ∧
    (truthy (parser (rawBuffer raw)).text = false →
     truthy (parser (rawBuffer raw)).html = false →
      (parseRawEmail parser h2t raw).body_text = "") ∧
    ((parser (rawBuffer raw)).fromText = none →
      (parseRawEmail parser h2t raw).fromAddr = "") ∧
    ((parser (rawBuffer raw)).toText = none →
      (parseRawEmail parser h2t raw).toAddr = "") ∧
    ((parser (rawBuffer raw)).ccText = none →
      (parseRawEmail parser h2t raw).ccAddr = "") ∧
    ((parser (rawBuffer raw)).subject = none →
      (parseRawEmail parser h2t raw).subject = "") ∧
    ((parser (rawBuffer raw)).dateIso = none →
      (parseRawEmail parser h2t raw).date = "") ∧
    ((parser (rawBuffer raw)).attachments = none →
      (parseRawEmail parser h2t raw).attachments = []) ∧
    (raw.raw = none →
      parseRawEmail parser h2t raw
        = parseRawEmail parser h2t { raw with raw := some "" }) := by
  refine ⟨rfl, ?_, ?_, ?_, ?_, ?_, ?_, ?_, ?_, ?_, ?_⟩
  · intro s hs hne
    simp [parseRawEmail, fallbackText, truthy, hs,
      String.isEmpty_iff, hne]
  · intro hs htf hh hne
    simp [parseRawEmail, fallbackText, truthy, htf, hh,
      String.isEmpty_iff, hne]
    simp [truthy] at htf
    simp [fallbackText, htf, truthy, hh, String.isEmpty_iff, hne]
  · intro htf hhf
    simp [parseRawEmail, fallbackText, htf, hhf]
  · intro h; simp [parseRawEmail, h]
  · intro h; simp [parseRawEmail, h]
  · intro h; simp [parseRawEmail, h]
  · intro h; simp [parseRawEmail, h]
  · intro h; simp [parseRawEmail, h]
  · intro h; simp [parseRawEmail, h]
  · intro h
    have : ({ raw with raw := some "" } : RawGmail).raw.getD ""
        = raw.raw.getD "" := by rw [h]; rfl
    simp [parseRawEmail, rawBuffer, this]

/-- Witness for C10: an HTML-only mail with every header missing. -/
theorem parse_raw_email_total_defaults_witness :
    (parseRawEmail
      (fun _ => ⟨none, some "<b>x</b>", none, none, none, none, none, none⟩)
      (fun _ => "x")
      ⟨some "id1", some "t1", none⟩).body_text = "x" ∧
    (parseRawEmail
      (fun _ => ⟨none, some "<b>x</b>", none, none, none, none, none, none⟩)
      (fun _ => "x")
      ⟨some "id1", some "t1", none⟩).fromAddr = "" := by
  have h := parse_raw_email_total_defaults
    (fun _ => ⟨none, some "<b>x</b>", none, none, none, none, none, none⟩)
    (fun _ => "x")
    ⟨some "id1", some "t1", none⟩
  exact ⟨h.2.2.1 "<b>x</b>" rfl rfl (by decide), h.2.2.2.2.1 rfl⟩

/-! ## URL extraction (`src/url_extract.js`, two divergent copies)

The source tree contains two `extractUrls` implementations: one
returning per-URL detail (a `urls` list with per-entry
source/suspicious/summary fields) and one returning a flat summary
(`count`, `unique_domains`, boolean flags).  Their scanning regexes —
the anchor-tag scan producing `(href, inner-text)` matches and the
plaintext `http(s)://…` scan — are textually identical in the two
copies, so both are modelled as one shared match stream: `anchors` is
the list of `(match[1], match[2])` captures of the anchor regex and
`plains` the list of plaintext regex matches, in document order, with
`none` standing for a falsy `bodyText` (both copies return their empty
result then).  JS's `new URL(u).hostname` is the platform URL library,
abstracted as `parse : String → Option String` (`none` models the
constructor throwing).  All repository logic downstream of the scans —
display-text normalization, root-domain extraction, IP detection, the
display/href mismatch test, deduplication and result assembly — is
embedded from the source. -/

/-- `new URL(u).hostname`, abstracted. -/
def UrlParse : Type := String → Option String

/-- One anchor-regex match: `href` is `match[1]`, `inner` is
`match[2]` (the raw inner HTML of the `<a>` element). -/
structure AnchorMatch where
  href : String
  inner : String

/-- The shared regex match stream of a (truthy) body text. -/
structure BodyMatches where
  anchors : List AnchorMatch
  plains : List String

/-- Strip HTML tags: the global replace of `<[^>]+>` with nothing.  A
`<` followed by at least one non-`>` character and a closing `>` is
removed; a bare `<>` or an unclosed `<…` is kept, as the regex requires
both a non-empty interior and the closing `>`. -/
def stripTags : List Char → List Char
  | [] => []
  | c :: rest =>
    if c = '<' then
      let inner := rest.takeWhile (fun d => d ≠ '>')
      if inner.isEmpty then c :: stripTags rest
      else if (rest.drop inner.length).head? = some '>' then
        stripTags (rest.drop (inner.length + 1))
      else c :: stripTags rest
    else c :: stripTags rest
termination_by cs => cs.length
decreasing_by
  all_goals simp only [List.length_cons, List.length_drop]
  all_goals omega

/-- Collapse every whitespace run to a single space (the global
replace of one-or-more whitespace with `' '`). -/
def collapseWs : List Char → List Char
  | [] => []
  | c :: rest =>
    if c.isWhitespace then
      ' ' :: collapseWs (rest.dropWhile Char.isWhitespace)
    else c :: collapseWs rest
termination_by cs => cs.length
decreasing_by
  · simp only [List.length_cons]
    have := (List.dropWhile_sublist (l := rest)
      (p := Char.isWhitespace)).length_le
    omega
  · simp

/-- JS `String.trim`: drop leading and trailing whitespace. -/
def trimWs (cs : List Char) : List Char :=
  ((cs.dropWhile Char.isWhitespace).reverse.dropWhile Char.isWhitespace).reverse

/-- The display text of an anchor: strip tags from the inner HTML,
collapse whitespace, trim. -/
def displayTextOf (inner : String) : String :=
  String.mk (trimWs (collapseWs (stripTags inner.toList)))

/-- The multi-part TLD list both copies hard-code. -/
def multiPartTlds : List String :=
  ["co.uk", "co.nz", "co.jp", "co.kr", "co.in", "co.za",
   "com.au", "com.br", "com.mx", "com.sg", "com.hk",
   "org.uk", "org.au", "net.au", "gov.uk", "ac.uk"]

/-- `extractRootDomain`: hostname of the URL, lowercased, reduced to
its last two labels (three for a multi-part TLD); `none` when the URL
does not parse (the `catch` branch returns `null`). -/
def extractRootDomain (parse : UrlParse) (url : String) : Option String :=
  match parse url with
  | none => none
  | some host =>
    let hostname := host.toLower
    let parts := hostname.splitOn "."
    if parts.length ≤ 2 then some hostname
    else if multiPartTlds.contains
        (String.intercalate "." (parts.drop (parts.length - 2))) then
      some (String.intercalate "." (parts.drop (parts.length - 3)))
    else some (String.intercalate "." (parts.drop (parts.length - 2)))

/-- The `ip_type` values of `checkIpBasedUrl`. -/
inductive IpKind where
  | ipv6
  | ipv4
  | decimalIp
deriving DecidableEq, Repr

/-- The rendering of an `ip_type` in the JS strings. -/
def ipName : IpKind → String
  | .ipv6 => "ipv6"
  | .ipv4 => "ipv4"
  | .decimalIp => "decimal_ip"

/-- The IPv4 shape test `(\d digits 1..3 then dot) three times then
digits 1..3`, via the dot-split of the hostname. -/
def ipv4Shape (hostname : String) : Bool :=
  let parts := hostname.splitOn "."
  parts.length == 4 && parts.all (fun p =>
    1 ≤ p.length && p.length ≤ 3 && p.toList.all Char.isDigit)

/-- Every dot-separated octet is at most 255. -/
def ipv4Octets (hostname : String) : Bool :=
  (hostname.splitOn ".").all (fun p => (p.toNat?.getD 0) ≤ 255)

/-- The decimal-IP shape test: 8 to 10 digits. -/
def decimalShape (hostname : String) : Bool :=
  8 ≤ hostname.length && hostname.length ≤ 10
    && hostname.toList.all Char.isDigit

/-- `checkIpBasedUrl`: `some kind` models
`{ is_ip_based: true, ip_type: kind }`, `none` models
`{ is_ip_based: false, ip_type: null }` (identical in both copies). -/
def checkIpBasedUrl (parse : UrlParse) (url : String) : Option IpKind :=
  match parse url with
  | none => none
  | some hostname =>
    if hostname.startsWith "[" && hostname.endsWith "]" then some .ipv6
    else if ipv4Shape hostname && ipv4Octets hostname then some .ipv4
    else if decimalShape hostname
        && (hostname.toNat?.getD 0) ≤ 4294967295 then some .decimalIp
    else none

/-- The TLD alternation of the `displayLooksLikeUrl` regex. -/
def displayTldList : List String :=
  ["com", "org", "net", "edu", "gov", "io", "co", "us", "uk", "ca",
   "au", "de", "fr", "jp", "cn", "ru", "br", "in", "mx", "es", "it",
   "nl", "se", "no", "fi", "dk", "pl", "cz", "at", "ch", "be", "pt",
   "ie", "nz", "sg", "hk", "kr", "tw", "my", "ph", "th", "vn", "id",
   "za"]

/-- A character of the regex class `[\w.-]`. -/
def isWordDotDash (c : Char) : Bool :=
  c.isAlphanum || c == '_' || c == '.' || c == '-'

/-- The regex tail `[\w.-]+\.(tld alternation)` as a prefix test, with
backtracking modelled as the existence of a split. -/
def domainish (cs : List Char) : Bool :=
  (List.range cs.length).any (fun k =>
    (cs.take (k + 1)).all isWordDotDash &&
    (match cs.drop (k + 1) with
     | '.' :: r => displayTldList.any (fun t => t.toList.isPrefixOf r)
     | _ => false))

/-- The optional `https?:\/\/` scheme group: the remainder after a
scheme prefix, if one is present. -/
def stripScheme (cs : List Char) : Option (List Char) :=
  if "https://".toList.isPrefixOf cs then some (cs.drop 8)
  else if "http://".toList.isPrefixOf cs then some (cs.drop 7)
  else none

/-- The `displayLooksLikeUrl` regex test (anchored at the start, open
at the end): with the optional scheme consumed or not, the rest must
open with a word/dot/dash run, a dot and a known TLD. -/
def displayLooksLikeUrl (s : String) : Bool :=
  let cs := s.toList
  (match stripScheme cs with
   | some rest => domainish rest
   | none => false) || domainish cs

/-- The URL the display text is parsed as:
`displayText.startsWith('http') ? displayText : 'https://' + displayText`. -/
def displayUrlOf (displayText : String) : String :=
  if displayText.startsWith "http" then displayText
  else "https://" ++ displayText

/-- The display-text domain: computed only when the display text looks
like a URL (JS leaves it `null` otherwise). -/
def displayDomainOf (parse : UrlParse) (displayText : String) :
    Option String :=
  if displayLooksLikeUrl displayText then
    extractRootDomain parse (displayUrlOf displayText)
  else none

/-- The display/href mismatch flag: both domains truthy (non-null,
non-empty) and different.  Identical in both copies. -/
def mismatchOf (parse : UrlParse) (href displayText : String) : Bool :=
  match displayDomainOf parse displayText, extractRootDomain parse href with
  | some dd, some hd => !dd.isEmpty && !hd.isEmpty && dd != hd
  | _, _ => false

/-- `replace(/[.,;:!?)>\]]+$/, '')` on a plaintext match. -/
def cleanTrailingPunct (s : String) : String :=
  String.mk ((s.toList.reverse.dropWhile
    (fun c => c ∈ ['.', ',', ';', ':', '!', '?', ')', '>', ']'])).reverse)

/-- Whether an anchor href enters the result (`http://`/`https://`
only). -/
def anchorHrefOk (href : String) : Bool :=
  href.startsWith "http://" || href.startsWith "https://"

/-- The entry source tag of the per-URL-detail copy. -/
inductive UrlSource where
  | htmlAnchor
  | plaintext
deriving DecidableEq, Repr

/-- An entry of the per-URL-detail copy before analysis.  A plaintext
entry carries no `display_domain`/`mismatch` in JS (undefined, hence
falsy); that is modelled as `none`/`false`. -/
structure EntryDetail where
  display_text : String
  url : String
  root_domain : Option String
  display_domain : Option String
  mismatch : Bool
  source : UrlSource

/-- An entry of the flat-summary copy before the scan. -/
structure EntrySummary where
  url : String
  root_domain : Option String
  display_text : Option String
  mismatch : Bool

/-- The anchor entries of the per-URL-detail copy. -/
def htmlEntriesDetail (parse : UrlParse) (ms : List AnchorMatch) :
    List EntryDetail :=
  ms.filterMap (fun m =>
    if anchorHrefOk m.href then
      let displayText := displayTextOf m.inner
      some { display_text := if displayText.isEmpty then "[no text]"
                             else displayText,
             url := m.href,
             root_domain := extractRootDomain parse m.href,
             display_domain := displayDomainOf parse displayText,
             mismatch := mismatchOf parse m.href displayText,
             source := .htmlAnchor }
    else none)

/-- The plaintext entries of the per-URL-detail copy. -/
def plainEntriesDetail (parse : UrlParse) (us : List String) :
    List EntryDetail :=
  us.map (fun u =>
    let cleaned := cleanTrailingPunct u
    { display_text := cleaned, url := cleaned,
      root_domain := extractRootDomain parse cleaned,
      display_domain := none, mismatch := false, source := .plaintext })

/-- The anchor entries of the flat-summary copy. -/
def htmlEntriesSummary (parse : UrlParse) (ms : List AnchorMatch) :
    List EntrySummary :=
  ms.filterMap (fun m =>
    if anchorHrefOk m.href then
      let displayText := displayTextOf m.inner
      some { url := m.href,
             root_domain := extractRootDomain parse m.href,
             display_text := if displayText.isEmpty then none
                             else some displayText,
             mismatch := mismatchOf parse m.href displayText }
    else none)

/-- The plaintext entries of the flat-summary copy. -/
def plainEntriesSummary (parse : UrlParse) (us : List String) :
    List EntrySummary :=
  us.map (fun u =>
    let cleaned := cleanTrailingPunct u
    { url := cleaned, root_domain := extractRootDomain parse cleaned,
      display_text := none, mismatch := false })

/-- A JS `Map` as an insertion-ordered association list: lookup. -/
def mapLookup {E : Type} (k : String) (m : List (String × E)) :
    Option E :=
  (m.find? (fun p => p.1 == k)).map Prod.snd

/-- A JS `Map`: `set` replaces in place or appends. -/
def mapSet {E : Type} (k : String) (v : E) (m : List (String × E)) :
    List (String × E) :=
  if m.any (fun p => p.1 == k) then
    m.map (fun p => if p.1 == k then (k, v) else p)
  else m ++ [(k, v)]

/-- One step of the per-URL-detail `deduplicateUrls`: prefer an HTML
anchor over a stored plaintext entry, and prefer a mismatch-flagged
entry over a stored unflagged one. -/
def dedupStepDetail (m : List (String × EntryDetail)) (e : EntryDetail) :
    List (String × EntryDetail) :=
  let key := e.url.toLower
  match mapLookup key m with
  | none => mapSet key e m
  | some ex =>
    let m1 := if e.source = .htmlAnchor ∧ ex.source = .plaintext then
        mapSet key e m
      else m
    if e.mismatch && !ex.mismatch then mapSet key e m1 else m1

/-- One step of the flat-summary `deduplicateUrls`: prefer a
mismatch-flagged entry over a stored unflagged one. -/
def dedupStepSummary (m : List (String × EntrySummary))
    (e : EntrySummary) : List (String × EntrySummary) :=
  let key := e.url.toLower
  match mapLookup key m with
  | none => mapSet key e m
  | some ex => if e.mismatch && !ex.mismatch then mapSet key e m else m

/-- The per-URL-detail `deduplicateUrls`. -/
def deduplicateUrlsDetail (es : List EntryDetail) : List EntryDetail :=
  (es.foldl dedupStepDetail []).map Prod.snd

/-- The flat-summary `deduplicateUrls`. -/
def deduplicateUrlsSummary (es : List EntrySummary) :
    List EntrySummary :=
  (es.foldl dedupStepSummary []).map Prod.snd

/-- Substring containment (JS `String.includes`). -/
def strContains (s sub : String) : Bool :=
  (List.range (s.toList.length + 1)).any
    (fun i => sub.toList.isPrefixOf (s.toList.drop i))

/-- The brand-name fragments the per-URL-detail copy scans for. -/
def impersonatedBrands : List String :=
  ["google", "gmail", "microsoft", "outlook", "office365", "apple",
   "icloud", "amazon", "aws", "paypal", "netflix", "spotify",
   "dropbox", "facebook", "instagram", "twitter", "linkedin", "bank",
   "wellsfargo", "chase", "citi", "usps", "fedex", "ups", "dhl",
   "irs", "gov", "security", "verify", "account", "support", "help",
   "service", "update", "confirm", "alert", "notification"]

/-- The legitimate root domains the per-URL-detail copy allows. -/
def legitimateDomains : List String :=
  ["google.com", "gmail.com", "microsoft.com", "outlook.com",
   "office365.com", "apple.com", "icloud.com", "amazon.com",
   "aws.amazon.com", "paypal.com", "netflix.com", "spotify.com",
   "dropbox.com", "facebook.com", "instagram.com", "twitter.com",
   "x.com", "linkedin.com", "wellsfargo.com", "chase.com", "citi.com",
   "usps.com", "fedex.com", "ups.com", "dhl.com"]

/-- `checkSuspiciousDomain` (per-URL-detail copy only): `some reason`
models `{ suspicious: true, reason }`, `none` models
`{ suspicious: false }`.  A `null` or empty root domain is falsy and
never suspicious. -/
def checkSuspiciousDomain (rootDomain : Option String)
    (fullHostname : Option String) : Option String :=
  match rootDomain with
  | none => none
  | some rd =>
    if rd.isEmpty then none
    else
      let dominated := rd.toLower
      let fullHost := match fullHostname with
        | some f => if f.isEmpty then rd.toLower else f.toLower
        | none => rd.toLower
      if legitimateDomains.contains dominated then none
      else
        match impersonatedBrands.find? (fun b =>
            strContains dominated b
              && !(legitimateDomains.contains dominated)) with
        | some b =>
          some ("Domain contains \"" ++ b
            ++ "\" but is not the legitimate " ++ b ++ " domain")
        | none =>
          if fullHost != dominated then
            match impersonatedBrands.find?
                (fun b => strContains fullHost b) with
            | some b =>
              some ("Hostname \"" ++ fullHost ++ "\" contains \"" ++ b
                ++ "\" but root domain is " ++ rd)
            | none => none
          else none

/-- A fully analyzed entry of the per-URL-detail copy. -/
structure AnalyzedUrl where
  display_text : String
  url : String
  root_domain : Option String
  display_domain : Option String
  mismatch : Bool
  source : UrlSource
  is_ip_based : Bool
  ip_type : Option IpKind
  suspicious : Bool
  suspicious_reason : Option String

/-- The per-entry analysis pass of the per-URL-detail copy: hostname
for subdomain checks, IP detection (always suspicious, with its own
reason overriding the domain reason), brand-impersonation check. -/
def analyzeUrl (parse : UrlParse) (e : EntryDetail) : AnalyzedUrl :=
  let fullHostname := parse e.url
  let ipCheck := checkIpBasedUrl parse e.url
  let suspiciousCheck := checkSuspiciousDomain e.root_domain fullHostname
  { display_text := e.display_text, url := e.url,
    root_domain := e.root_domain, display_domain := e.display_domain,
    mismatch := e.mismatch, source := e.source,
    is_ip_based := ipCheck.isSome, ip_type := ipCheck,
    suspicious := suspiciousCheck.isSome || ipCheck.isSome,
    suspicious_reason :=
      if ipCheck.isSome then
        some ("URL uses raw " ++ ((ipCheck.map ipName).getD "null")
          ++ " address instead of domain - legitimate services never do this")
      else suspiciousCheck }

/-- The human-readable summary string of the per-URL-detail copy. -/
def summaryOf (analyzedUrls : List AnalyzedUrl) : Option String :=
  let hasMismatchedUrls := analyzedUrls.any (fun u => u.mismatch)
  let hasSuspiciousDomains := analyzedUrls.any (fun u => u.suspicious)
  let hasIpBasedUrls := analyzedUrls.any (fun u => u.is_ip_based)
  if hasMismatchedUrls || hasSuspiciousDomains || hasIpBasedUrls then
    let ipBased := analyzedUrls.filter (fun u => u.is_ip_based)
    let issues1 : List String :=
      if ipBased.length > 0 then
        ["CRITICAL: IP-BASED URLs DETECTED (phishing red flag): "
          ++ String.intercalate "; " ((ipBased.take 3).map (fun u =>
            String.mk (u.url.toList.take 60) ++ "... ("
              ++ ((u.ip_type.map ipName).getD "null") ++ ")"))]
      else []
    let mismatched := analyzedUrls.filter (fun u => u.mismatch)
    let issues2 : List String :=
      if mismatched.length > 0 then
        ["URL MISMATCH DETECTED: "
          ++ String.intercalate "; " ((mismatched.take 3).map (fun u =>
            "\"" ++ u.display_text ++ "\" actually links to "
              ++ (u.root_domain.getD "null")))]
      else []
    let suspicious := analyzedUrls.filter
      (fun u => u.suspicious && !u.is_ip_based)
    let issues3 : List String :=
      if suspicious.length > 0 then
        ["SUSPICIOUS DOMAINS: "
          ++ String.intercalate "; " ((suspicious.take 3).map (fun u =>
            (u.root_domain.getD "null") ++ " ("
              ++ (u.suspicious_reason.getD "null") ++ ")"))]
      else []
    some (String.intercalate " | " (issues1 ++ issues2 ++ issues3))
  else none

/-- The result shape of the per-URL-detail copy.  (Its falsy-body early
return carries no `has_ip_based_urls` field in JS — an absent, falsy
field — modelled as `false`.) -/
structure DetailResult where
  urls : List AnalyzedUrl
  has_mismatched_urls : Bool
  has_suspicious_domains : Bool
  has_ip_based_urls : Bool
  summary : Option String

/-- The per-URL-detail `extractUrls` over the shared match stream. -/
def extractUrlsDetail (parse : UrlParse) (body : Option BodyMatches) :
    DetailResult :=
  match body with
  | none =>
    { urls := [], has_mismatched_urls := false,
      has_suspicious_domains := false, has_ip_based_urls := false,
      summary := none }
  | some b =>
    let allUrls := deduplicateUrlsDetail
      (htmlEntriesDetail parse b.anchors ++ plainEntriesDetail parse b.plains)
    let analyzedUrls := allUrls.map (analyzeUrl parse)
    { urls := analyzedUrls,
      has_mismatched_urls := analyzedUrls.any (fun u => u.mismatch),
      has_suspicious_domains := analyzedUrls.any (fun u => u.suspicious),
      has_ip_based_urls := analyzedUrls.any (fun u => u.is_ip_based),
      summary := summaryOf analyzedUrls }

/-- The result shape of the flat-summary copy. -/
structure SummaryResult where
  count : ℕ
  unique_domains : List String
  has_ip_based_urls : Bool
  has_mismatched_urls : Bool

/-- A JS `Set` of strings: insertion-ordered, duplicate-free add. -/
def setAdd (s : List String) (x : String) : List String :=
  if s.contains x then s else s ++ [x]

/-- One step of the flat-summary copy's scan over the deduplicated
entries: collect truthy root domains (plus the raw hostname of an
IP-based URL), and accumulate the two flags. -/
def summaryScanStep (parse : UrlParse)
    (acc : List String × Bool × Bool) (e : EntrySummary) :
    List String × Bool × Bool :=
  let d1 := match e.root_domain with
    | some rd => if rd.isEmpty then acc.1 else setAdd acc.1 rd
    | none => acc.1
  let ipSome := (checkIpBasedUrl parse e.url).isSome
  let d2 := if ipSome then
      match parse e.url with
      | some h => setAdd d1 h
      | none => d1
    else d1
  (d2, acc.2.1 || ipSome, acc.2.2 || e.mismatch)

/-- The flat-summary `extractUrls` over the shared match stream. -/
def extractUrlsSummary (parse : UrlParse) (body : Option BodyMatches) :
    SummaryResult :=
  match body with
  | none =>
    { count := 0, unique_domains := [], has_ip_based_urls := false,
      has_mismatched_urls := false }
  | some b =>
    let allUrls := deduplicateUrlsSummary
      (htmlEntriesSummary parse b.anchors
        ++ plainEntriesSummary parse b.plains)
    let scanned := allUrls.foldl (summaryScanStep parse)
      ([], false, false)
    { count := allUrls.length, unique_domains := scanned.1,
      has_ip_based_urls := scanned.2.1,
      has_mismatched_urls := scanned.2.2 }

/-- The per-entry data both copies agree on: the href and the mismatch
flag. -/
def EntryRel (d : EntryDetail) (s : EntrySummary) : Prop :=
  d.url = s.url ∧ d.mismatch = s.mismatch

/-- Pairwise relation between the two copies' dedup maps: same keys in
the same order, values related. -/
def MapRel (mD : List (String × EntryDetail))
    (mS : List (String × EntrySummary)) : Prop :=
  List.Forall₂ (fun pd ps => pd.1 = ps.1 ∧ EntryRel pd.2 ps.2) mD mS

/-- The two copies' anchor builders admit the same matches and agree on
href and mismatch. -/
theorem rel_html (parse : UrlParse) (ms : List AnchorMatch) :
    List.Forall₂ EntryRel (htmlEntriesDetail parse ms)
      (htmlEntriesSummary parse ms) := by
  induction ms with
  | nil => exact List.Forall₂.nil
  | cons m rest ih =>
    simp only [htmlEntriesDetail, htmlEntriesSummary,
      List.filterMap_cons] at *
    by_cases h : anchorHrefOk m.href
    · simp only [h, if_true]
      exact List.Forall₂.cons ⟨rfl, rfl⟩ ih
    · simp only [h, if_false]
      exact ih

/-- The two copies' plaintext builders agree on href and mismatch. -/
theorem rel_plain (parse : UrlParse) (us : List String) :
    List.Forall₂ EntryRel (plainEntriesDetail parse us)
      (plainEntriesSummary parse us) := by
  induction us with
  | nil => exact List.Forall₂.nil
  | cons u rest ih =>
    exact List.Forall₂.cons ⟨rfl, rfl⟩ ih

/-- Every entry the detail anchor builder produces is tagged
`html_anchor`. -/
theorem html_source (parse : UrlParse) (ms : List AnchorMatch) :
    ∀ e ∈ htmlEntriesDetail parse ms, e.source = .htmlAnchor := by
  intro e he
  rcases List.mem_filterMap.mp he with ⟨m, _, hm⟩
  by_cases h : anchorHrefOk m.href
  · simp only [h, if_true] at hm
    cases hm
    rfl
  · simp [h] at hm

/-- Every entry the detail plaintext builder produces is tagged
`plaintext` and carries no mismatch flag. -/
theorem plain_source (parse : UrlParse) (us : List String) :
    ∀ e ∈ plainEntriesDetail parse us,
      e.source = .plaintext ∧ e.mismatch = false := by
  intro e he
  rcases List.mem_map.mp he with ⟨u, _, rfl⟩
  exact ⟨rfl, rfl⟩

/-- Related maps answer key-presence queries identically. -/
theorem maprel_any {mD : List (String × EntryDetail)}
    {mS : List (String × EntrySummary)} (h : MapRel mD mS) (k : String) :
    mD.any (fun p => p.1 == k) = mS.any (fun p => p.1 == k) := by
  induction h with
  | nil => rfl
  | cons hab _ ih =>
    simp only [List.any_cons, hab.1, ih]

/-- Related maps answer lookups with related results. -/
theorem maprel_lookup {mD : List (String × EntryDetail)}
    {mS : List (String × EntrySummary)} (h : MapRel mD mS) (k : String) :
    (mapLookup k mD = none ∧ mapLookup k mS = none) ∨
    (∃ d s, mapLookup k mD = some d ∧ mapLookup k mS = some s ∧
      EntryRel d s) := by
  induction h with
  | nil => exact Or.inl ⟨rfl, rfl⟩
  | @cons a b l₁ l₂ hab htail ih =>
    by_cases hk : (a.1 == k) = true
    · right
      refine ⟨a.2, b.2, ?_, ?_, hab.2⟩
      · simp [mapLookup, List.find?_cons, hk]
      · simp [mapLookup, List.find?_cons, hab.1 ▸ hk]
    · have hk2 : (b.1 == k) = false := by
        rw [← hab.1]
        exact Bool.eq_false_iff.mpr hk
      have hk1 : (a.1 == k) = false := Bool.eq_false_iff.mpr hk
      cases ih with
      | inl hnone =>
        left
        constructor
        · simp [mapLookup, List.find?_cons, hk1]
          simpa [mapLookup] using hnone.1
        · simp [mapLookup, List.find?_cons, hk2]
          simpa [mapLookup] using hnone.2
      | inr hsome =>
        rcases hsome with ⟨d, s, hd, hs, hds⟩
        right
        refine ⟨d, s, ?_, ?_, hds⟩
        · simpa [mapLookup, List.find?_cons, hk1] using hd
        · simpa [mapLookup, List.find?_cons, hk2] using hs

/-- In-place replacement at a key preserves the map relation. -/
theorem maprel_replace {mD : List (String × EntryDetail)}
    {mS : List (String × EntrySummary)} (h : MapRel mD mS) (k : String)
    (d : EntryDetail) (s : EntrySummary) (hds : EntryRel d s) :
    MapRel (mD.map (fun p => if p.1 == k then (k, d) else p))
      (mS.map (fun p => if p.1 == k then (k, s) else p)) := by
  induction h with
  | nil => exact List.Forall₂.nil
  | @cons a b l₁ l₂ hab htail ih =>
    simp only [List.map_cons]
    refine List.Forall₂.cons ?_ ih
    by_cases hk : (a.1 == k) = true
    · rw [if_pos hk, if_pos (hab.1 ▸ hk)]
      exact ⟨rfl, hds⟩
    · rw [if_neg hk, if_neg (by rw [← hab.1]; exact hk)]
      exact hab

/-- `set` on related maps with related values preserves the relation. -/
theorem maprel_set {mD : List (String × EntryDetail)}
    {mS : List (String × EntrySummary)} (h : MapRel mD mS) (k : String)
    (d : EntryDetail) (s : EntrySummary) (hds : EntryRel d s) :
    MapRel (mapSet k d mD) (mapSet k s mS) := by
  unfold mapSet
  rw [maprel_any h k]
  by_cases hany : mS.any (fun p => p.1 == k) = true
  · rw [if_pos hany, if_pos hany]
    exact maprel_replace h k d s hds
  · rw [if_neg hany, if_neg hany]
    exact List.rel_append h
      (List.Forall₂.cons ⟨rfl, hds⟩ List.Forall₂.nil)

/-- Every value of `mapSet k v m` is `v` or a value already in `m`. -/
theorem mapSet_val_mem {E : Type} (k : String) (v : E)
    (m : List (String × E)) :
    ∀ p ∈ mapSet k v m, p.2 = v ∨ p ∈ m := by
  unfold mapSet
  split
  · intro p hp
    rcases List.mem_map.mp hp with ⟨q, hq, rfl⟩
    by_cases hk : (q.1 == k) = true
    · rw [if_pos hk]
      exact Or.inl rfl
    · rw [if_neg hk]
      exact Or.inr hq
  · intro p hp
    rcases List.mem_append.mp hp with hin | hin
    · exact Or.inr hin
    · rcases List.mem_singleton.mp hin with rfl
      exact Or.inl rfl

/-- Every value after a detail dedup step is the stepped entry or a
previously stored value. -/
theorem dedupStepDetail_val_mem (m : List (String × EntryDetail))
    (e : EntryDetail) :
    ∀ p ∈ dedupStepDetail m e, p.2 = e ∨ p ∈ m := by
  simp only [dedupStepDetail]
  cases hl : mapLookup (e.url.toLower) m with
  | none => exact mapSet_val_mem _ _ _
  | some ex =>
    intro p hp
    dsimp only at hp
    by_cases h1 : e.source = .htmlAnchor ∧ ex.source = .plaintext
    · rw [if_pos h1] at hp
      by_cases h2 : (e.mismatch && !ex.mismatch) = true
      · rw [if_pos h2] at hp
        rcases mapSet_val_mem _ _ _ p hp with hv | hin
        · exact Or.inl hv
        · rcases mapSet_val_mem _ _ _ p hin with hv | hin2
          · exact Or.inl hv
          · exact Or.inr hin2
      · rw [if_neg h2] at hp
        rcases mapSet_val_mem _ _ _ p hp with hv | hin
        · exact Or.inl hv
        · exact Or.inr hin
    · rw [if_neg h1] at hp
      by_cases h2 : (e.mismatch && !ex.mismatch) = true
      · rw [if_pos h2] at hp
        rcases mapSet_val_mem _ _ _ p hp with hv | hin
        · exact Or.inl hv
        · exact Or.inr hin
      · rw [if_neg h2] at hp
        exact Or.inr hp

/-- A successful lookup returns a stored value. -/
theorem mapLookup_val_mem {E : Type} (k : String)
    (m : List (String × E)) (v : E) (h : mapLookup k m = some v) :
    ∃ p ∈ m, p.2 = v := by
  unfold mapLookup at h
  cases hf : m.find? (fun p => p.1 == k) with
  | none => rw [hf] at h; cases h
  | some q =>
    rw [hf] at h
    exact ⟨q, List.mem_of_find?_eq_some hf, by
      cases h; rfl⟩

/-- One dedup step on an anchor entry, over maps that so far hold only
anchor entries: the html-over-plaintext rule cannot fire, so the two
copies take corresponding branches. -/
theorem dedupStep_rel_html (e : EntryDetail) (s : EntrySummary)
    (hes : EntryRel e s) (hehtml : e.source = .htmlAnchor)
    (mD : List (String × EntryDetail))
    (mS : List (String × EntrySummary)) (hm : MapRel mD mS)
    (hv : ∀ p ∈ mD, (p.2 : EntryDetail).source = .htmlAnchor) :
    MapRel (dedupStepDetail mD e) (dedupStepSummary mS s) ∧
    (∀ p ∈ dedupStepDetail mD e,
      (p.2 : EntryDetail).source = .htmlAnchor) := by
  have hkey : e.url.toLower = s.url.toLower := by rw [hes.1]
  rcases maprel_lookup hm (e.url.toLower) with
    ⟨hn1, hn2⟩ | ⟨d0, s0, hd0, hs0, hrel0⟩
  · have hn2s : mapLookup (s.url.toLower) mS = none := by
      rw [← hkey]; exact hn2
    have hstep1 : dedupStepDetail mD e = mapSet (e.url.toLower) e mD := by
      simp only [dedupStepDetail, hn1]
    have hstep2 : dedupStepSummary mS s = mapSet (s.url.toLower) s mS := by
      simp only [dedupStepSummary, hn2s]
    constructor
    · rw [hstep1, hstep2, ← hkey]
      exact maprel_set hm _ e s hes
    · rw [hstep1]
      intro p hp
      rcases mapSet_val_mem _ _ _ p hp with hveq | hin
      · rw [hveq]; exact hehtml
      · exact hv p hin
  · have hs0s : mapLookup (s.url.toLower) mS = some s0 := by
      rw [← hkey]; exact hs0
    have hd0html : d0.source = .htmlAnchor := by
      rcases mapLookup_val_mem _ _ _ hd0 with ⟨q, hq, hq2⟩
      rw [← hq2]
      exact hv q hq
    have hcond1 : ¬ (e.source = .htmlAnchor ∧ d0.source = .plaintext) := by
      intro hc
      rw [hd0html] at hc
      simp at hc
    have hstep1 : dedupStepDetail mD e =
        (if (e.mismatch && !d0.mismatch) = true then
          mapSet (e.url.toLower) e mD else mD) := by
      simp only [dedupStepDetail, hd0, if_neg hcond1]
    have hstep2 : dedupStepSummary mS s =
        (if (s.mismatch && !s0.mismatch) = true then
          mapSet (s.url.toLower) s mS else mS) := by
      simp only [dedupStepSummary, hs0s]
    have hmis : (e.mismatch && !d0.mismatch)
        = (s.mismatch && !s0.mismatch) := by
      rw [hes.2, hrel0.2]
    constructor
    · rw [hstep1, hstep2, hmis]
      by_cases h2 : (s.mismatch && !s0.mismatch) = true
      · rw [if_pos h2, if_pos h2, ← hkey]
        exact maprel_set hm _ e s hes
      · rw [if_neg h2, if_neg h2]
        exact hm
    · rw [hstep1]
      by_cases h2 : (e.mismatch && !d0.mismatch) = true
      · rw [if_pos h2]
        intro p hp
        rcases mapSet_val_mem _ _ _ p hp with hveq | hin
        · rw [hveq]; exact hehtml
        · exact hv p hin
      · rw [if_neg h2]
        exact hv

/-- One dedup step on a plaintext entry: a plaintext entry never
triggers either replacement rule, so both copies leave a hit
unchanged and append a miss. -/
theorem dedupStep_rel_plain (e : EntryDetail) (s : EntrySummary)
    (hes : EntryRel e s) (heplain : e.source = .plaintext)
    (hemis : e.mismatch = false) (mD : List (String × EntryDetail))
    (mS : List (String × EntrySummary)) (hm : MapRel mD mS) :
    MapRel (dedupStepDetail mD e) (dedupStepSummary mS s) := by
  have hkey : e.url.toLower = s.url.toLower := by rw [hes.1]
  rcases maprel_lookup hm (e.url.toLower) with
    ⟨hn1, hn2⟩ | ⟨d0, s0, hd0, hs0, hrel0⟩
  · have hn2s : mapLookup (s.url.toLower) mS = none := by
      rw [← hkey]; exact hn2
    have hstep1 : dedupStepDetail mD e = mapSet (e.url.toLower) e mD := by
      simp only [dedupStepDetail, hn1]
    have hstep2 : dedupStepSummary mS s = mapSet (s.url.toLower) s mS := by
      simp only [dedupStepSummary, hn2s]
    rw [hstep1, hstep2, ← hkey]
    exact maprel_set hm _ e s hes
  · have hs0s : mapLookup (s.url.toLower) mS = some s0 := by
      rw [← hkey]; exact hs0
    have hcond1 : ¬ (e.source = .htmlAnchor ∧ d0.source = .plaintext) := by
      intro hc
      rw [heplain] at hc
      simp at hc
    have hmisF : (e.mismatch && !d0.mismatch) = false := by
      rw [hemis]
      rfl
    have hmisF2 : (s.mismatch && !s0.mismatch) = false := by
      rw [← hes.2, hemis]
      rfl
    have hstep1 : dedupStepDetail mD e = mD := by
      simp only [dedupStepDetail, hd0, if_neg hcond1, hmisF,
        Bool.false_eq_true, if_false]
    have hstep2 : dedupStepSummary mS s = mS := by
      simp only [dedupStepSummary, hs0s, hmisF2, Bool.false_eq_true,
        if_false]
    rw [hstep1, hstep2]
    exact hm

/-- The dedup folds over the anchor block keep the maps related and
all-anchor. -/
theorem fold_html_rel :
    ∀ {es : List EntryDetail} {ss : List EntrySummary},
    List.Forall₂ EntryRel es ss →
    (∀ e ∈ es, e.source = .htmlAnchor) →
    ∀ mD mS, MapRel mD mS →
    (∀ p ∈ mD, (p.2 : EntryDetail).source = .htmlAnchor) →
    MapRel (es.foldl dedupStepDetail mD) (ss.foldl dedupStepSummary mS) ∧
    (∀ p ∈ es.foldl dedupStepDetail mD,
      (p.2 : EntryDetail).source = .htmlAnchor) := by
  intro es ss hrel
  induction hrel with
  | nil =>
    intro _ mD mS hm hv
    exact ⟨hm, hv⟩
  | @cons e s es' ss' hes htail ih =>
    intro hsrc mD mS hm hv
    have hstep := dedupStep_rel_html e s hes
      (hsrc e (List.mem_cons_self _ _)) mD mS hm hv
    simp only [List.foldl_cons]
    exact ih (fun x hx => hsrc x (List.mem_cons_of_mem _ hx))
      _ _ hstep.1 hstep.2

/-- The dedup folds over the plaintext block keep the maps related. -/
theorem fold_plain_rel :
    ∀ {es : List EntryDetail} {ss : List EntrySummary},
    List.Forall₂ EntryRel es ss →
    (∀ e ∈ es, e.source = .plaintext ∧ e.mismatch = false) →
    ∀ mD mS, MapRel mD mS →
    MapRel (es.foldl dedupStepDetail mD) (ss.foldl dedupStepSummary mS) := by
  intro es ss hrel
  induction hrel with
  | nil =>
    intro _ mD mS hm
    exact hm
  | @cons e s es' ss' hes htail ih =>
    intro hsrc mD mS hm
    have hhead := hsrc e (List.mem_cons_self _ _)
    have hstep := dedupStep_rel_plain e s hes hhead.1 hhead.2 mD mS hm
    simp only [List.foldl_cons]
    exact ih (fun x hx => hsrc x (List.mem_cons_of_mem _ hx)) _ _ hstep

/-- Related maps have related value lists. -/
theorem maprel_snd {mD : List (String × EntryDetail)}
    {mS : List (String × EntrySummary)} (h : MapRel mD mS) :
    List.Forall₂ EntryRel (mD.map Prod.snd) (mS.map Prod.snd) := by
  induction h with
  | nil => exact List.Forall₂.nil
  | cons hab _ ih => exact List.Forall₂.cons hab.2 ih

/-- `any` agrees across pointwise-related lists under pointwise-equal
predicates. -/
theorem forall₂_any {es : List EntryDetail} {ss : List EntrySummary}
    (h : List.Forall₂ EntryRel es ss) (f : EntryDetail → Bool)
    (g : EntrySummary → Bool)
    (hfg : ∀ d s, EntryRel d s → f d = g s) :
    es.any f = ss.any g := by
  induction h with
  | nil => rfl
  | cons hab _ ih =>
    simp only [List.any_cons, hfg _ _ hab, ih]

/-- The flat-summary scan's two flags are the `any` of the IP test and
of the mismatch flag over the scanned entries. -/
theorem scan_flags (parse : UrlParse) :
    ∀ (es : List EntrySummary) (acc : List String × Bool × Bool),
    (es.foldl (summaryScanStep parse) acc).2.1
      = (acc.2.1 || es.any (fun e => (checkIpBasedUrl parse e.url).isSome)) ∧
    (es.foldl (summaryScanStep parse) acc).2.2
      = (acc.2.2 || es.any (fun e => e.mismatch)) := by
  intro es
  induction es with
  | nil =>
    intro acc
    simp
  | cons e rest ih =>
    intro acc
    simp only [List.foldl_cons, List.any_cons]
    have hstep1 : (summaryScanStep parse acc e).2.1
        = (acc.2.1 || (checkIpBasedUrl parse e.url).isSome) := rfl
    have hstep2 : (summaryScanStep parse acc e).2.2
        = (acc.2.2 || e.mismatch) := rfl
    constructor
    · rw [(ih _).1, hstep1, Bool.or_assoc]
    · rw [(ih _).2, hstep2, Bool.or_assoc]

/-- `any` over a mapped list tests the composite predicate. -/
theorem any_map_general {α β : Type} (f : α → β) (l : List α)
    (p : β → Bool) : (l.map f).any p = l.any (fun a => p (f a)) := by
  induction l with
  | nil => rfl
  | cons a rest ih => simp only [List.map_cons, List.any_cons, ih]

/-- C8: the source's two divergent `extractUrls` copies — per-URL
detail vs. flat summary — agree, for every body text (every shared
match stream) and every behaviour of the platform URL parser, on the
`has_mismatched_urls` flag, on the `has_ip_based_urls` flag, and on the
number of reported URLs (the detail copy's `urls` list length equals
the summary copy's `count`). -/
theorem extract_urls_agreement (parse : UrlParse)
    (body : Option BodyMatches) :
    (extractUrlsDetail parse body).has_mismatched_urls
      = (extractUrlsSummary parse body).has_mismatched_urls ∧
    (extractUrlsDetail parse body).has_ip_based_urls
      = (extractUrlsSummary parse body).has_ip_based_urls ∧
    (extractUrlsDetail parse body).urls.length
      = (extractUrlsSummary parse body).count := by
  cases body with
  | none => exact ⟨rfl, rfl, rfl⟩
  | some b =>
    have h1 := fold_html_rel (rel_html parse b.anchors)
      (html_source parse b.anchors) [] [] List.Forall₂.nil
      (fun p hp => absurd hp (List.not_mem_nil p))
    have h2 := fold_plain_rel (rel_plain parse b.plains)
      (plain_source parse b.plains) _ _ h1.1
    have hfold : MapRel
        ((htmlEntriesDetail parse b.anchors
          ++ plainEntriesDetail parse b.plains).foldl dedupStepDetail [])
        ((htmlEntriesSummary parse b.anchors
          ++ plainEntriesSummary parse b.plains).foldl dedupStepSummary []) := by
      rw [List.foldl_append, List.foldl_append]
      exact h2
    have hvals := maprel_snd hfold
    have hmis : (deduplicateUrlsDetail
        (htmlEntriesDetail parse b.anchors
          ++ plainEntriesDetail parse b.plains)).any (fun e => e.mismatch)
        = (deduplicateUrlsSummary
        (htmlEntriesSummary parse b.anchors
          ++ plainEntriesSummary parse b.plains)).any (fun e => e.mismatch) :=
      forall₂_any hvals _ _ (fun d s hds => hds.2)
    have hip : (deduplicateUrlsDetail
        (htmlEntriesDetail parse b.anchors
          ++ plainEntriesDetail parse b.plains)).any
          (fun e => (checkIpBasedUrl parse e.url).isSome)
        = (deduplicateUrlsSummary
        (htmlEntriesSummary parse b.anchors
          ++ plainEntriesSummary parse b.plains)).any
          (fun e => (checkIpBasedUrl parse e.url).isSome) :=
      forall₂_any hvals _ _ (fun d s hds => by rw [hds.1])
    have hlen : (deduplicateUrlsDetail
        (htmlEntriesDetail parse b.anchors
          ++ plainEntriesDetail parse b.plains)).length
        = (deduplicateUrlsSummary
        (htmlEntriesSummary parse b.anchors
          ++ plainEntriesSummary parse b.plains)).length :=
      hvals.length_eq
    have hscan := scan_flags parse
      (deduplicateUrlsSummary
        (htmlEntriesSummary parse b.anchors
          ++ plainEntriesSummary parse b.plains)) ([], false, false)
    refine ⟨?_, ?_, ?_⟩
    · show ((deduplicateUrlsDetail _).map (analyzeUrl parse)).any
        (fun u => u.mismatch) = _
      rw [any_map_general]
      refine hmis.trans ?_
      refine Eq.trans ?_ (hscan.2.symm)
      exact (Bool.false_or _).symm
    · show ((deduplicateUrlsDetail _).map (analyzeUrl parse)).any
        (fun u => u.is_ip_based) = _
      rw [any_map_general]
      refine hip.trans ?_
      refine Eq.trans ?_ (hscan.1.symm)
      exact (Bool.false_or _).symm
    · show ((deduplicateUrlsDetail _).map (analyzeUrl parse)).length = _
      rw [List.length_map]
      exact hlen

/-- Witness for C8 at a concrete parser and match stream. -/
theorem extract_urls_agreement_witness :
    (extractUrlsDetail (fun _ => none)
      (some ⟨[⟨"http://a.com/x", "hi"⟩], ["http://a.com/x"]⟩)).urls.length
      = (extractUrlsSummary (fun _ => none)
      (some ⟨[⟨"http://a.com/x", "hi"⟩], ["http://a.com/x"]⟩)).count :=
  (extract_urls_agreement (fun _ => none)
    (some ⟨[⟨"http://a.com/x", "hi"⟩], ["http://a.com/x"]⟩)).2.2

end MailScreener
